import Mathlib

/-!
# Matrix-free auxiliary-space Maxwell solver (`linalg/auxiliary.cpp`)

A shallow embedding of `GeneralAMS`, `ZeroWrap`, `MatrixFreeAuxiliarySpace` and
`MatrixFreeAMS` from `src/linalg/auxiliary.cpp`, and theorems about them.

Conventions of the embedding.

* `double` is an exact commutative ring (an ordered field where the conjugate
  gradient iteration divides and compares); `mfem::Vector` is a list of
  entries, its `Size()` the length of the list.
* A C++ call `op.Mult(x, y)` writes into the caller's `y`; it is embedded as
  `op.Mult x y`, the content of `y` on return, given the input `x` and the
  content of `y` on entry.
* `MFEM_ASSERT` and `mfem_error` abort the program: functions that can reach
  them return in `Except Failure`.
* Newly allocated storage (`Vector v(n)`) has indeterminate content, given by a
  parameter `mem`.
* Wall-clock timers (`StopWatch`, the `*_time_` accumulators) do not influence
  any computed value and are left out.
* Ownership is embedded at the level of addresses: an object allocated with
  `new` is known by its address, a pointer member is an optional address, and a
  destructor gives the sequence of the addresses it releases.
-/

namespace mfem

/-! ## Collaborators declared outside `auxiliary.cpp` -/

/-- Abnormal terminations of the embedded code. -/
inductive Failure where
  /-- A call of `mfem_error` (also through a failed `MFEM_ASSERT`): a reported
  fatal error carrying its message. -/
  | mfem_error (msg : String)
  /-- The indirection `*p` of a null pointer `p`: nothing is reported. -/
  | null_dereference
  deriving DecidableEq, Repr

/-- Modelled from the spec: the macro `MFEM_ASSERT(cond, msg)` of
`general/error.hpp`, which is not part of the sources at hand.  Precondition
violations are fatal and reported at call time. -/
def MFEM_ASSERT (cond : Bool) (msg : String) : Except Failure Unit :=
  if cond then pure () else throw (Failure.mfem_error msg)

/-- Modelled from the spec: `mfem::Vector` (`linalg/vector.hpp`, not part of
the sources at hand), a fixed-size numeric vector. -/
abbrev Vector (R : Type) := List R

namespace Vector

variable {R : Type}

/-- The call `v.Size()`. -/
def Size (v : Vector R) : Nat := v.length

/-- The declaration `Vector v(n)`: `n` entries of indeterminate content `mem`. -/
def create (mem : Nat → R) (n : Nat) : Vector R := (List.range n).map mem

/-- The call `v.SetSize(n)`, which guarantees no content: `n` entries of
indeterminate content `mem`. -/
def SetSize (_v : Vector R) (mem : Nat → R) (n : Nat) : Vector R := create mem n

/-- The assignment `v = c` of a constant to every entry. -/
def assign (v : Vector R) (c : R) : Vector R := v.map (fun _ => c)

/-- The scaling `v *= c`. -/
def scale [Mul R] (v : Vector R) (c : R) : Vector R := v.map (fun a => a * c)

/-- The update `y += v`, which asserts that the two sizes agree. -/
def addAssign [Add R] (y v : Vector R) : Except Failure (Vector R) := do
  MFEM_ASSERT (y.Size == v.Size) "incompatible Vectors!"
  pure (List.zipWith (fun a b => a + b) y v)

/-- The entry write `Y[k] = c` through the raw pointer `Y`.  An index outside
`0 .. Size-1` is outside the storage; the embedding leaves the vector as it is
there. -/
def setEntry (v : Vector R) (k : Int) (c : R) : Vector R :=
  if 0 ≤ k then v.set k.toNat c else v

end Vector

/-- Modelled from the spec: the abstract `mfem::Operator` interface
(`linalg/operator.hpp`, not part of the sources at hand): fixed dimensions and
the two applications `Mult` and `MultTranspose`, each giving the content of the
output vector on return from the input and the output vector on entry. -/
structure Operator (R : Type) where
  /-- The member `Height()`. -/
  height : Nat
  /-- The member `Width()`. -/
  width : Nat
  /-- The member `Mult(x, y)`. -/
  Mult : Vector R → Vector R → Vector R
  /-- The member `MultTranspose(x, y)`. -/
  MultTranspose : Vector R → Vector R → Vector R

/-! ## `GeneralAMS` -/

/-- The data members of `GeneralAMS` read by `Mult`: the six collaborating
operators and the list of essential true dofs. -/
structure GeneralAMS (R : Type) where
  /-- The base class part `Solver(A.Height())`. -/
  height : Nat
  /-- The system operator. -/
  A_ : Operator R
  /-- The interpolation into the Pi space. -/
  pi_ : Operator R
  /-- The discrete gradient. -/
  g_ : Operator R
  /-- The solver of the Pi space. -/
  pispacesolver_ : Operator R
  /-- The solver of the G space. -/
  gspacesolver_ : Operator R
  /-- The smoother. -/
  smoother_ : Operator R
  /-- The essential true dofs. -/
  ess_tdof_list_ : List Int

/-- The stages of the cycle that invoke a solver. -/
inductive Stage where
  | smoother
  | gspacesolver
  | pispacesolver
  deriving DecidableEq, Repr

/-- An observable step of `GeneralAMS::Mult`: the invocation of a stage solver
on an input, or a call of `FormResidual` with its right-hand side and its
iterate. -/
inductive Call (R : Type) where
  | solve (s : Stage) (input : Vector R)
  | FormResidual (rhs x : Vector R)
  deriving DecidableEq, Repr

/-- The stage a call invokes, if it is a solver invocation. -/
def Call.stage? {R : Type} : Call R → Option Stage
  | Call.solve s _ => some s
  | Call.FormResidual _ _ => none

/-- The arguments of a call of `FormResidual`, if it is one. -/
def Call.residualArgs? {R : Type} : Call R → Option (Vector R × Vector R)
  | Call.solve _ _ => none
  | Call.FormResidual rhs x => some (rhs, x)

/-- Computations of `GeneralAMS`: they may abort and they record their calls. -/
abbrev Traced (R : Type) := StateT (List (Call R)) (Except Failure)

/-- Record a call at the end of the trace. -/
def record {R : Type} (c : Call R) : Traced R Unit :=
  modify (fun tr => tr ++ [c])

namespace GeneralAMS

variable {R : Type} [CommRing R]

/-- The constructor `GeneralAMS::GeneralAMS` (lines 19-41): it stores its
arguments and asserts nothing. -/
def new (A pi g pispacesolver gspacesolver smoother : Operator R)
    (ess_tdof_list : List Int) : GeneralAMS R :=
  { height := A.height, A_ := A, pi_ := pi, g_ := g,
    pispacesolver_ := pispacesolver, gspacesolver_ := gspacesolver,
    smoother_ := smoother, ess_tdof_list_ := ess_tdof_list }

/-- The call `smoother_.Mult(x, y)`. -/
def smoother_Mult (ams : GeneralAMS R) (x y : Vector R) : Traced R (Vector R) := do
  record (Call.solve Stage.smoother x)
  pure (ams.smoother_.Mult x y)

/-- The call `gspacesolver_.Mult(x, y)`. -/
def gspacesolver_Mult (ams : GeneralAMS R) (x y : Vector R) : Traced R (Vector R) := do
  record (Call.solve Stage.gspacesolver x)
  pure (ams.gspacesolver_.Mult x y)

/-- The call `pispacesolver_.Mult(x, y)`. -/
def pispacesolver_Mult (ams : GeneralAMS R) (x y : Vector R) : Traced R (Vector R) := do
  record (Call.solve Stage.pispacesolver x)
  pure (ams.pispacesolver_.Mult x y)

/-- The function `GeneralAMS::FormResidual` (lines 47-59); the result is the
content of `residual` on return. -/
def FormResidual (ams : GeneralAMS R) (rhs x residual : Vector R) :
    Traced R (Vector R) := do
  record (Call.FormResidual rhs x)
  let residual := ams.A_.Mult x residual
  let residual := residual.scale (-1)
  let residual ← Vector.addAssign residual rhs
  pure residual

/-- The function `GeneralAMS::Mult` (lines 61-179).  The result is the content
of `y` on return; `mem` is the content of newly allocated storage and
`HYPRE_USING_CUDA` tells whether the build defines the macro of that name. -/
def Mult (ams : GeneralAMS R) (HYPRE_USING_CUDA : Bool) (mem : Nat → R) (x y : Vector R) :
    Traced R (Vector R) := do
  -- cycle would be more like 0102010 if below is true
  let extra_smoothing := false
  MFEM_ASSERT (x.Size == y.Size) "Sizes don't match!"
  MFEM_ASSERT (ams.A_.height == x.Size) "Sizes don't match!"
  let residual := Vector.create mem x.Size
  let residual := residual.assign 0
  let y := y.assign 0
  -- smooth
  let y ← ams.smoother_Mult x y
  -- g-space correction
  let residual ← ams.FormResidual x y residual
  let gspacetemp := Vector.create mem ams.g_.width
  let gspacetemp := gspacetemp.assign 0
  let gspacetemp := ams.g_.MultTranspose residual gspacetemp
  let gspacecorrection := Vector.create mem ams.g_.width
  let gspacecorrection := gspacecorrection.assign 0
  let gspacecorrection ← ams.gspacesolver_Mult gspacetemp gspacecorrection
  let residual := ams.g_.Mult gspacecorrection residual
  let y ← Vector.addAssign y residual
  let temp := Vector.create mem x.Size
  let (y, residual, temp) ←
    if extra_smoothing then do
      let residual ← ams.FormResidual x y residual
      let temp ← ams.smoother_Mult residual temp
      let y ← Vector.addAssign y temp
      pure (y, residual, temp)
    else pure (y, residual, temp)
  -- pi-space correction
  let residual ← ams.FormResidual x y residual
  let pispacetemp :=
    if HYPRE_USING_CUDA then Vector.SetSize [] mem ams.pi_.width
    else (Vector.SetSize [] mem ams.pi_.width).assign 0
  let pispacetemp := ams.pi_.MultTranspose residual pispacetemp
  let pispacecorrection := Vector.SetSize [] mem ams.pi_.width
  let pispacecorrection := pispacecorrection.assign 0
  let pispacecorrection ← ams.pispacesolver_Mult pispacetemp pispacecorrection
  let residual := ams.pi_.Mult pispacecorrection residual
  let y ← Vector.addAssign y residual
  let (y, residual, temp) ←
    if extra_smoothing then do
      let residual ← ams.FormResidual x y residual
      let temp ← ams.smoother_Mult residual temp
      let y ← Vector.addAssign y temp
      pure (y, residual, temp)
    else pure (y, residual, temp)
  -- g-space correction
  let residual ← ams.FormResidual x y residual
  let gspacetemp := ams.g_.MultTranspose residual gspacetemp
  let gspacecorrection := gspacecorrection.assign 0
  let gspacecorrection ← ams.gspacesolver_Mult gspacetemp gspacecorrection
  let residual := ams.g_.Mult gspacecorrection residual
  let y ← Vector.addAssign y residual
  -- smooth
  let residual ← ams.FormResidual x y residual
  let temp ← ams.smoother_Mult residual temp
  let y ← Vector.addAssign y temp
  pure y

end GeneralAMS

/-! ## Collaborators of `MatrixFreeAuxiliarySpace` -/

/-- The indirection `*p` of a pointer `p`, null being `none`. -/
def deref {α : Type} (p : Option α) : Except Failure α :=
  match p with
  | some a => pure a
  | none => throw Failure.null_dereference

/-- Modelled from the spec: `mfem::Solver` (`linalg/operator.hpp`, not part of
the sources at hand), a square operator of which the code calls `Mult` only. -/
structure Solver (R : Type) where
  /-- The member `Height()`. -/
  height : Nat
  /-- The member `Mult(x, y)`. -/
  Mult : Vector R → Vector R → Vector R

/-- A scalar coefficient object, known by its identity. -/
structure Coefficient where
  id : Nat
  deriving DecidableEq, Repr

/-- A vector-valued coefficient object, known by its identity. -/
structure VectorCoefficient where
  id : Nat
  deriving DecidableEq, Repr

/-- The enumeration `Matrix::DiagonalPolicy`. -/
inductive DiagonalPolicy where
  | DIAG_ZERO
  | DIAG_ONE
  | DIAG_KEEP
  deriving DecidableEq, Repr

/-- The domain integrators `auxiliary.cpp` creates, each with the coefficient
it is constructed from. -/
inductive BilinearFormIntegrator where
  | DiffusionIntegrator (q : Coefficient)
  | VectorDiffusionIntegrator (q : Coefficient)
  | VectorMassIntegrator (q : Coefficient)
  | VectorMassIntegratorVQ (vq : VectorCoefficient)
  deriving DecidableEq, Repr

/-- A parallel mesh, of which the code reads the dimension. -/
structure ParMesh where
  Dimension : Int
  deriving DecidableEq, Repr

/-- A finite element space of `H1_FECollection(order, dim)` on a mesh with
`vdim` components. -/
structure ParFiniteElementSpace where
  mesh : ParMesh
  order : Int
  vdim : Int
  deriving DecidableEq, Repr

/-- Modelled from the spec: `ParBilinearForm` (`fem/pbilinearform.hpp`, not part
of the sources at hand), as the record of the calls made on it before
`ParallelAssemble`. -/
structure ParBilinearForm where
  fes : ParFiniteElementSpace
  diag_policy : DiagonalPolicy
  domain_integs : List BilinearFormIntegrator
  precomputed_sparsity : Bool
  assembled : Bool
  eliminated : List (List Int × DiagonalPolicy)
  finalized : Bool
  deriving DecidableEq, Repr

namespace ParBilinearForm

/-- The declaration `ParBilinearForm a_space(&fes)`. -/
def new (fes : ParFiniteElementSpace) : ParBilinearForm :=
  { fes := fes, diag_policy := DiagonalPolicy.DIAG_KEEP, domain_integs := [],
    precomputed_sparsity := false, assembled := false, eliminated := [], finalized := false }

/-- The call `SetDiagonalPolicy(policy)`. -/
def SetDiagonalPolicy (a : ParBilinearForm) (policy : DiagonalPolicy) : ParBilinearForm :=
  { a with diag_policy := policy }

/-- The call `AddDomainIntegrator(bfi)`. -/
def AddDomainIntegrator (a : ParBilinearForm) (bfi : BilinearFormIntegrator) : ParBilinearForm :=
  { a with domain_integs := a.domain_integs ++ [bfi] }

/-- The call `UsePrecomputedSparsity()`. -/
def UsePrecomputedSparsity (a : ParBilinearForm) : ParBilinearForm :=
  { a with precomputed_sparsity := true }

/-- The call `Assemble()`. -/
def Assemble (a : ParBilinearForm) : ParBilinearForm :=
  { a with assembled := true }

/-- The call `EliminateEssentialBC(ess_bdr, policy)`. -/
def EliminateEssentialBC (a : ParBilinearForm) (ess_bdr : List Int)
    (policy : DiagonalPolicy) : ParBilinearForm :=
  { a with eliminated := a.eliminated ++ [(ess_bdr, policy)] }

/-- The call `Finalize()`. -/
def Finalize (a : ParBilinearForm) : ParBilinearForm :=
  { a with finalized := true }

end ParBilinearForm

/-- An assembled parallel matrix, of which the code reads the height. -/
structure HypreParMatrix where
  height : Nat
  width : Nat
  id : Nat
  deriving DecidableEq, Repr

/-- An MPI communicator, of which the code reads the rank of the calling
process (`MPI_Comm_rank`). -/
structure MPI_Comm where
  rank : Int
  deriving DecidableEq, Repr

/-- The library routines `auxiliary.cpp` calls and does not define, and the
build option `MFEM_USE_AMGX`. -/
structure External (R : Type) where
  /-- The list `fes.GetEssentialTrueDofs(ess_bdr, list)` writes. -/
  GetEssentialTrueDofs : ParFiniteElementSpace → List Int → List Int
  /-- The matrix `a.ParallelAssemble()` returns. -/
  ParallelAssemble : ParBilinearForm → HypreParMatrix
  /-- The solver `new HypreBoomerAMG(mat)`, after `SetSystemsOptions(dim)` when
  a dimension is given. -/
  HypreBoomerAMG : HypreParMatrix → Option Int → Solver R
  /-- The solver `new AmgXSolver(...)` after `SetOperator(mat)`. -/
  AmgXSolver : HypreParMatrix → Solver R
  /-- The solver `new UMFPackSolver()` after `SetOperator` on the diagonal
  block of `mat`. -/
  UMFPackSolver : HypreParMatrix → Solver R
  /-- Whether the build defines `MFEM_USE_AMGX`. -/
  MFEM_USE_AMGX : Bool

/-- Modelled from the spec: `RAPOperator(Rt, A, P)` (`linalg/operator.hpp`, not
part of the sources at hand), the triple product `Rt^T A P`; its temporaries
are vectors of `P.Height()` and `A.Height()` entries of content `mem`. -/
def RAPOperator {R : Type} (mem : Nat → R) (Rt A P : Operator R) : Operator R :=
  { height := Rt.width
    width := P.width
    Mult := fun x y =>
      let Px := P.Mult x (Vector.create mem P.height)
      let APx := A.Mult Px (Vector.create mem A.height)
      Rt.MultTranspose APx y
    MultTranspose := fun x y =>
      let APx := Rt.Mult x (Vector.create mem A.height)
      let Px := A.MultTranspose APx (Vector.create mem P.height)
      P.MultTranspose Px y }

/-! ## `CGSolver` -/

namespace Vector

variable {R : Type}

/-- The inner product `Dot(a, b)` (the function `InnerProduct`). -/
def Dot [Mul R] [Add R] [Zero R] (a b : Vector R) : R :=
  (List.zipWith (fun u v => u * v) a b).sum

/-- The function `add(v1, alpha, v2, v)`: `v = v1 + alpha * v2`. -/
def add [Mul R] [Add R] (v1 : Vector R) (alpha : R) (v2 : Vector R) : Vector R :=
  List.zipWith (fun u v => u + alpha * v) v1 v2

/-- The function `subtract(v1, v2, v)`: `v = v1 - v2`. -/
def subtract [Sub R] (v1 v2 : Vector R) : Vector R :=
  List.zipWith (fun u v => u - v) v1 v2

end Vector

/-- Modelled from the spec: the data members of `CGSolver`
(`linalg/solvers.hpp`, not part of the sources at hand): operator,
preconditioner, tolerances, iteration bound, and the count of the last
solve. -/
structure CGSolver (R : Type) where
  comm : MPI_Comm
  oper : Option (Operator R)
  prec : Option (Solver R)
  rel_tol : R
  abs_tol : R
  max_iter : Int
  print_level : Int
  iterative_mode : Bool
  final_iter : Int
  converged : Bool

namespace CGSolver

variable {R : Type} [LinearOrderedField R]

/-- Modelled from the spec: the constructor `CGSolver(comm)` with the defaults
of `IterativeSolver`. -/
def new (comm : MPI_Comm) : CGSolver R :=
  { comm := comm, oper := none, prec := none, rel_tol := 0, abs_tol := 0, max_iter := 10,
    print_level := -1, iterative_mode := true, final_iter := 0, converged := false }

/-- The call `SetOperator(op)`. -/
def SetOperator (cg : CGSolver R) (op : Operator R) : CGSolver R := { cg with oper := some op }

/-- The call `SetPreconditioner(pr)`. -/
def SetPreconditioner (cg : CGSolver R) (pr : Solver R) : CGSolver R := { cg with prec := some pr }

/-- The call `SetRelTol(rtol)`. -/
def SetRelTol (cg : CGSolver R) (rtol : R) : CGSolver R := { cg with rel_tol := rtol }

/-- The call `SetMaxIter(max_it)`. -/
def SetMaxIter (cg : CGSolver R) (max_it : Int) : CGSolver R := { cg with max_iter := max_it }

/-- The call `SetPrintLevel(print_lvl)`. -/
def SetPrintLevel (cg : CGSolver R) (print_lvl : Int) : CGSolver R :=
  { cg with print_level := print_lvl }

/-- The call `GetNumIterations()`. -/
def GetNumIterations (cg : CGSolver R) : Int := cg.final_iter

/-- Modelled from the spec: the iteration of the preconditioned conjugate
gradient method, from pass `i` on; the result is the iterate, the iteration
count and the convergence flag.  The pass counter is bounded by `max_iter`, and
`fuel` bounds the number of passes. -/
def iteration (cg : CGSolver R) (A : Operator R) (r0 : R) :
    Nat → Int → Vector R → Vector R → Vector R → Vector R → R → R → Vector R × Int × Bool
  | 0, _, x, _, _, _, _, _ => (x, cg.max_iter, false)
  | fuel + 1, i, x, r, d, z, nom, den =>
    let alpha := nom / den
    let x := Vector.add x alpha d
    let r := Vector.add r (-alpha) z
    let z := match cg.prec with
      | some B => B.Mult r z
      | none => z
    let betanom := match cg.prec with
      | some _ => Vector.Dot r z
      | none => Vector.Dot r r
    if betanom < r0 then (x, i, true)
    else
      let i := i + 1
      if i > cg.max_iter then (x, cg.max_iter, false)
      else
        let beta := betanom / nom
        let d := match cg.prec with
          | some _ => Vector.add z beta d
          | none => Vector.add r beta d
        let z := A.Mult d z
        let den := Vector.Dot d z
        if den = 0 then (x, i, false)
        else iteration cg A r0 fuel i x r d z betanom den

/-- Modelled from the spec: `CGSolver::Mult(b, x)` (`linalg/solvers.cpp`, not
part of the sources at hand), a conjugate-gradient solve against `oper`
preconditioned by `prec`, which stops when the preconditioned residual has
decreased by `rel_tol` or after `max_iter` iterations.  The result is the
content of `x` on return and the solver with its iteration count updated; the
work vectors start with content `mem`. -/
def Mult (cg : CGSolver R) (mem : Nat → R) (b x : Vector R) :
    Except Failure (Vector R × CGSolver R) := do
  let A ← deref cg.oper
  let r := Vector.create mem A.width
  let z := Vector.create mem A.width
  let (r, x) :=
    if cg.iterative_mode then
      let r := A.Mult x r
      (Vector.subtract b r, x)
    else (b, x.assign 0)
  let (z, d) := match cg.prec with
    | some B => let z := B.Mult r z; (z, z)
    | none => (z, r)
  let nom := Vector.Dot d r
  let r0 := max (nom * cg.rel_tol * cg.rel_tol) (cg.abs_tol * cg.abs_tol)
  if nom ≤ r0 then
    pure (x, { cg with converged := true, final_iter := 0 })
  else
    let z := A.Mult d z
    let den := Vector.Dot z d
    if den = 0 then
      pure (x, { cg with converged := false, final_iter := 0 })
    else
      let (x, final_iter, converged) :=
        iteration cg A r0 (cg.max_iter.toNat + 1) 1 x r d z nom den
      pure (x, { cg with converged := converged, final_iter := final_iter })

end CGSolver

/-! ## `ZeroWrap` -/

/-- The data members of `ZeroWrap`: the wrapped solver `s` and the list of
essential true dofs. -/
structure ZeroWrap (R : Type) where
  /-- The base class part `Solver(mat.Height())`. -/
  height : Nat
  s : Solver R
  ess_tdof_list_ : List Int

namespace ZeroWrap

variable {R : Type}

/-- The constructor `ZeroWrap::ZeroWrap` (lines 365-385). -/
def new (ext : External R) (mat : HypreParMatrix) (ess_tdof_list : List Int)
    (useAMGx : Bool) : ZeroWrap R :=
  { height := mat.height
    ess_tdof_list_ := ess_tdof_list
    s := if ext.MFEM_USE_AMGX && useAMGx then ext.AmgXSolver mat
         else ext.HypreBoomerAMG mat none }

/-- The function `ZeroWrap::Mult` (lines 387-397). -/
def Mult [Zero R] (zw : ZeroWrap R) (x y : Vector R) : Vector R :=
  let y := zw.s.Mult x y
  zw.ess_tdof_list_.foldl (fun Y k => Vector.setEntry Y k 0) y

/-- A `ZeroWrap` seen through a pointer to its base class `Solver`. -/
def toSolver [Zero R] (zw : ZeroWrap R) : Solver R :=
  { height := zw.height, Mult := zw.Mult }

end ZeroWrap

/-! ## `MatrixFreeAuxiliarySpace` -/

/-- The object the pointer `aspacewrapper_` designates: the one of `aspacepc_`
or the one of `cg_`. -/
inductive WrapperTarget where
  | aspacepc
  | cg
  deriving DecidableEq, Repr

/-- The data members of `MatrixFreeAuxiliarySpace`. -/
structure MatrixFreeAuxiliarySpace (R : Type) where
  /-- The base class part `Solver(height)`: the declared size of the input and
  output vectors. -/
  height : Nat
  comm : MPI_Comm
  ess_tdof_list_ : List Int
  aspacematrix_ : HypreParMatrix
  aspacepc_ : Solver R
  matfree_ : Option (Operator R)
  cg_ : Option (CGSolver R)
  aspacewrapper_ : WrapperTarget
  inner_aux_iterations_ : Int
  /-- The flag `useAMGx` declared in the header. -/
  useAMGx : Bool
  /-- The flag `directSolve` declared in the header. -/
  directSolve : Bool

namespace MatrixFreeAuxiliarySpace

variable {R : Type} [LinearOrderedField R]

/-- The members `SetupCG` sets: `matfree_`, `cg_` and `aspacewrapper_`. -/
structure InnerSolve (R : Type) where
  matfree_ : Option (Operator R)
  cg_ : Option (CGSolver R)
  aspacewrapper_ : WrapperTarget

/-- The function `MatrixFreeAuxiliarySpace::SetupBoomerAMG` (lines 412-448);
the result is the solver assigned to `aspacepc_`. -/
def SetupBoomerAMG (ext : External R) (useAMGx directSolve : Bool)
    (aspacematrix_ : HypreParMatrix) (ess_tdof_list_ : List Int)
    (system_dimension : Int) : Solver R :=
  if system_dimension = 0 then
    -- boundary condition tweak for G-space solver
    (ZeroWrap.new ext aspacematrix_ ess_tdof_list_ useAMGx).toSolver
  else if directSolve then
    ext.UMFPackSolver aspacematrix_
  else
    -- Pi-space solver is a vector space
    if ext.MFEM_USE_AMGX && useAMGx then ext.AmgXSolver aspacematrix_
    else ext.HypreBoomerAMG aspacematrix_ (some system_dimension)

/-- The function `MatrixFreeAuxiliarySpace::SetupCG` (lines 321-355). -/
def SetupCG (mem : Nat → R) (comm : MPI_Comm) (aspacepc_ : Solver R)
    (curlcurl_oper conn : Operator R) (inner_cg_iterations : Int)
    (very_verbose : Bool) : Except Failure (InnerSolve R) := do
  MFEM_ASSERT (conn.height == curlcurl_oper.width) "Operators don't match!"
  let matfree_ := RAPOperator mem conn curlcurl_oper conn
  MFEM_ASSERT (matfree_.height == aspacepc_.height) "Operators don't match!"
  let cg_ : CGSolver R := CGSolver.new comm
  let cg_ := cg_.SetOperator matfree_
  let cg_ := cg_.SetPreconditioner aspacepc_
  let cg_ :=
    if inner_cg_iterations > 99 then
      (cg_.SetRelTol 1e-14).SetMaxIter 100
    else
      (cg_.SetRelTol 0).SetMaxIter inner_cg_iterations
  let cg_ := if very_verbose then cg_.SetPrintLevel 1 else cg_.SetPrintLevel (-1)
  pure { matfree_ := some matfree_, cg_ := some cg_, aspacewrapper_ := WrapperTarget.cg }

/-- The function `MatrixFreeAuxiliarySpace::SetupVCycle` (lines 357-360);
`matfree_` and `cg_` keep the null pointers of the initializer list. -/
def SetupVCycle : InnerSolve R :=
  { matfree_ := none, cg_ := none, aspacewrapper_ := WrapperTarget.aspacepc }

set_option linter.unusedVariables false in
/-- The Pi-space constructor (lines 182-255); `alpha_vcoeff` is used in a
comment only. -/
def PiSpace (ext : External R) (useAMGx directSolve : Bool) (mem : Nat → R)
    (comm_ : MPI_Comm) (mesh_lor : ParMesh)
    (alpha_coeff beta_coeff : Option Coefficient)
    (alpha_vcoeff beta_vcoeff : Option VectorCoefficient)
    (ess_bdr : List Int) (curlcurl_oper pi : Operator R) (cg_iterations : Int) :
    Except Failure (MatrixFreeAuxiliarySpace R) := do
  let height := pi.width
  let fespace_lor_d : ParFiniteElementSpace :=
    { mesh := mesh_lor, order := 1, vdim := mesh_lor.Dimension }
  -- build LOR AMG v-cycle
  let ess_tdof_list_ :=
    if ess_bdr.length ≠ 0 then ext.GetEssentialTrueDofs fespace_lor_d ess_bdr else []
  let a_space := ParBilinearForm.new fespace_lor_d
  let policy := DiagonalPolicy.DIAG_KEEP
  let a_space := a_space.SetDiagonalPolicy policy
  let a_space ←
    match alpha_coeff with
    | some alpha =>
      pure (a_space.AddDomainIntegrator (BilinearFormIntegrator.VectorDiffusionIntegrator alpha))
    | none => throw (Failure.mfem_error "VectorCoefficient support not implemented?")
  let a_space ←
    match beta_coeff with
    | some beta =>
      pure (a_space.AddDomainIntegrator (BilinearFormIntegrator.VectorMassIntegrator beta))
    | none => do
      let beta_v ← deref beta_vcoeff
      pure (a_space.AddDomainIntegrator (BilinearFormIntegrator.VectorMassIntegratorVQ beta_v))
  let a_space := a_space.UsePrecomputedSparsity
  let a_space := a_space.Assemble
  let a_space :=
    if ess_bdr.length ≠ 0 then a_space.EliminateEssentialBC ess_bdr policy else a_space
  let a_space := a_space.Finalize
  let aspacematrix_ := ext.ParallelAssemble a_space
  let aspacepc_ := SetupBoomerAMG ext useAMGx directSolve aspacematrix_ ess_tdof_list_
    fespace_lor_d.mesh.Dimension
  let inner ←
    if cg_iterations > 0 then
      let super_duper_extra_verbose := false
      SetupCG mem comm_ aspacepc_ curlcurl_oper pi cg_iterations super_duper_extra_verbose
    else
      pure SetupVCycle
  pure { height := height, comm := comm_, ess_tdof_list_ := ess_tdof_list_,
         aspacematrix_ := aspacematrix_, aspacepc_ := aspacepc_,
         matfree_ := inner.matfree_, cg_ := inner.cg_,
         aspacewrapper_ := inner.aspacewrapper_, inner_aux_iterations_ := 0,
         useAMGx := useAMGx, directSolve := directSolve }

/-- The G-space constructor (lines 258-319); `very_verbose` is the default
argument of `SetupCG` declared in the header. -/
def GSpace (ext : External R) (useAMGx directSolve : Bool) (mem : Nat → R)
    (comm_ : MPI_Comm) (mesh_lor : ParMesh) (beta_coeff : Option Coefficient)
    (ess_bdr : List Int) (curlcurl_oper g : Operator R) (cg_iterations : Int)
    (very_verbose : Bool) :
    Except Failure (MatrixFreeAuxiliarySpace R) := do
  let height := curlcurl_oper.height
  let fespace_lor : ParFiniteElementSpace := { mesh := mesh_lor, order := 1, vdim := 1 }
  -- build LOR AMG v-cycle
  let a_space := ParBilinearForm.new fespace_lor
  let policy := DiagonalPolicy.DIAG_ONE
  let a_space := a_space.SetDiagonalPolicy policy
  let beta ← deref beta_coeff
  let a_space := a_space.AddDomainIntegrator (BilinearFormIntegrator.DiffusionIntegrator beta)
  let a_space := a_space.UsePrecomputedSparsity
  let a_space := a_space.Assemble
  let ess_tdof_list_ :=
    if ess_bdr.length ≠ 0 then ext.GetEssentialTrueDofs fespace_lor ess_bdr else []
  let a_space :=
    if ess_bdr.length ≠ 0 then a_space.EliminateEssentialBC ess_bdr policy else a_space
  let a_space := a_space.Finalize
  let aspacematrix_ := ext.ParallelAssemble a_space
  let aspacepc_ := SetupBoomerAMG ext useAMGx directSolve aspacematrix_ ess_tdof_list_ 0
  let inner ←
    if cg_iterations > 0 then
      -- inner CG seems necessary in G-space solver
      SetupCG mem comm_ aspacepc_ curlcurl_oper g cg_iterations very_verbose
    else
      pure SetupVCycle
  pure { height := height, comm := comm_, ess_tdof_list_ := ess_tdof_list_,
         aspacematrix_ := aspacematrix_, aspacepc_ := aspacepc_,
         matfree_ := inner.matfree_, cg_ := inner.cg_,
         aspacewrapper_ := inner.aspacewrapper_, inner_aux_iterations_ := 0,
         useAMGx := useAMGx, directSolve := directSolve }

/-- The function `MatrixFreeAuxiliarySpace::Mult` (lines 450-464).  The result
is the content of `y` on return and the solver after the call. -/
def Mult (self : MatrixFreeAuxiliarySpace R) (mem : Nat → R) (x y : Vector R) :
    Except Failure (Vector R × MatrixFreeAuxiliarySpace R) := do
  let rank := self.comm.rank
  let y := y.assign 0
  let (y, self) ←
    match self.aspacewrapper_ with
    | WrapperTarget.aspacepc => pure (self.aspacepc_.Mult x y, self)
    | WrapperTarget.cg => do
      let cg ← deref self.cg_
      let (y, cg) ← cg.Mult mem x y
      pure (y, { self with cg_ := some cg })
  match self.cg_ with
  | some cg =>
    if rank = 0 then
      let q := cg.GetNumIterations
      pure (y, { self with inner_aux_iterations_ := self.inner_aux_iterations_ + q })
    else pure (y, self)
  | none => pure (y, self)

end MatrixFreeAuxiliarySpace

/-! ### Vocabulary of the statements about `GeneralAMS` -/

/-- The computation returns normally, with a value satisfying `post`. -/
def Returns {ε α : Type} (e : Except ε α) (post : α → Prop) : Prop :=
  match e with
  | Except.ok a => post a
  | Except.error _ => False

/-- An operator that does not resize an output vector of its own height. -/
def Operator.KeepsHeight {R : Type} (op : Operator R) : Prop :=
  ∀ v out : Vector R, out.Size = op.height → (op.Mult v out).Size = op.height

/-- The entrywise sum of two vectors. -/
def Vector.plus {R : Type} [Add R] (a b : Vector R) : Vector R :=
  List.zipWith (fun u v => u + v) a b

/-- The entrywise difference of two vectors. -/
def Vector.minus {R : Type} [Sub R] (a b : Vector R) : Vector R :=
  List.zipWith (fun u v => u - v) a b

/-- The collaborators of the cycle as functions of their input in exact
arithmetic: smoother `S`, system operator `A`, the inter-space operators `G`,
`Pi` with their transposes `Gt`, `Pit`, and the auxiliary solvers `Bg`,
`Bpi`. -/
structure StageMaps (R : Type) where
  S : Vector R → Vector R
  A : Vector R → Vector R
  G : Vector R → Vector R
  Gt : Vector R → Vector R
  Bg : Vector R → Vector R
  Pi : Vector R → Vector R
  Pit : Vector R → Vector R
  Bpi : Vector R → Vector R

namespace StageMaps

variable {R : Type} [CommRing R]

/-- The residual `x - A y`. -/
def residual (m : StageMaps R) (x y : Vector R) : Vector R := Vector.minus x (m.A y)

/-- The iterate `y1 = S(x)`. -/
def y1 (m : StageMaps R) (x : Vector R) : Vector R := m.S x

/-- The iterate `y2 = y1 + G Bg(G^T (x - A y1))`. -/
def y2 (m : StageMaps R) (x : Vector R) : Vector R :=
  Vector.plus (m.y1 x) (m.G (m.Bg (m.Gt (m.residual x (m.y1 x)))))

/-- The iterate `y3 = y2 + Pi Bpi(Pi^T (x - A y2))`. -/
def y3 (m : StageMaps R) (x : Vector R) : Vector R :=
  Vector.plus (m.y2 x) (m.Pi (m.Bpi (m.Pit (m.residual x (m.y2 x)))))

/-- The iterate `y4 = y3 + G Bg(G^T (x - A y3))`. -/
def y4 (m : StageMaps R) (x : Vector R) : Vector R :=
  Vector.plus (m.y3 x) (m.G (m.Bg (m.Gt (m.residual x (m.y3 x)))))

/-- The iterate `y5 = y4 + S(x - A y4)`. -/
def y5 (m : StageMaps R) (x : Vector R) : Vector R :=
  Vector.plus (m.y4 x) (m.S (m.residual x (m.y4 x)))

/-- The maps have compatible shapes: `S` and `A` act on vectors of `n`
entries, `G` and `Pi` map `ng` resp. `npi` entries to `n`, their transposes map
back, and the auxiliary solvers act on `ng` resp. `npi` entries. -/
structure Shaped (m : StageMaps R) (n ng npi : Nat) : Prop where
  S : ∀ v : Vector R, v.Size = n → (m.S v).Size = n
  A : ∀ v : Vector R, v.Size = n → (m.A v).Size = n
  G : ∀ v : Vector R, v.Size = ng → (m.G v).Size = n
  Gt : ∀ v : Vector R, v.Size = n → (m.Gt v).Size = ng
  Bg : ∀ v : Vector R, v.Size = ng → (m.Bg v).Size = ng
  Pi : ∀ v : Vector R, v.Size = npi → (m.Pi v).Size = n
  Pit : ∀ v : Vector R, v.Size = n → (m.Pit v).Size = npi
  Bpi : ∀ v : Vector R, v.Size = npi → (m.Bpi v).Size = npi

end StageMaps

/-- The collaborators of `ams` are the functions `m`: every application
returns the value of the function at the input, whatever the output vector
held on entry. -/
structure GeneralAMS.Computes {R : Type} (ams : GeneralAMS R) (m : StageMaps R) : Prop where
  smoother : ∀ v out : Vector R, ams.smoother_.Mult v out = m.S v
  A : ∀ v out : Vector R, ams.A_.Mult v out = m.A v
  g : ∀ v out : Vector R, ams.g_.Mult v out = m.G v
  gT : ∀ v out : Vector R, ams.g_.MultTranspose v out = m.Gt v
  gspacesolver : ∀ v out : Vector R, ams.gspacesolver_.Mult v out = m.Bg v
  pi : ∀ v out : Vector R, ams.pi_.Mult v out = m.Pi v
  piT : ∀ v out : Vector R, ams.pi_.MultTranspose v out = m.Pit v
  pispacesolver : ∀ v out : Vector R, ams.pispacesolver_.Mult v out = m.Bpi v

/-! ### Concrete instances -/

/-- The operator on integer vectors that scales by `c` and returns `n` entries,
whatever the output vector held. -/
def demoDiag (n : Nat) (c : Int) : Vector Int → Vector Int :=
  fun v => (List.range n).map (fun i => c * v.getD i 0)

/-- The operator with the map `f` as `Mult` and `ft` as `MultTranspose`. -/
def demoOperator (h w : Nat) (f ft : Vector Int → Vector Int) : Operator Int :=
  { height := h, width := w, Mult := fun v _ => f v, MultTranspose := fun v _ => ft v }

/-- Stage maps on two entries: `A = 2`, `S = 1`, `G` copies its single entry
into both entries, `Pi` is the identity and both auxiliary solvers are the
identity. -/
def demoMaps : StageMaps Int :=
  { S := demoDiag 2 1
    A := demoDiag 2 2
    G := fun v => [v.getD 0 0, v.getD 0 0]
    Gt := fun v => [v.getD 0 0 + v.getD 1 0]
    Bg := demoDiag 1 1
    Pi := demoDiag 2 1
    Pit := demoDiag 2 1
    Bpi := demoDiag 2 1 }

/-- The cycle built of the operators of `demoMaps`. -/
def demoAMS : GeneralAMS Int :=
  GeneralAMS.new (demoOperator 2 2 demoMaps.A demoMaps.A)
    (demoOperator 2 2 demoMaps.Pi demoMaps.Pit)
    (demoOperator 2 1 demoMaps.G demoMaps.Gt)
    (demoOperator 2 2 demoMaps.Bpi demoMaps.Bpi)
    (demoOperator 1 1 demoMaps.Bg demoMaps.Bg)
    (demoOperator 2 2 demoMaps.S demoMaps.S) []

/-- The apply operator of `s` is its preconditioner itself: `aspacewrapper_`
designates the object of `aspacepc_` and there is no conjugate-gradient
solver. -/
def MatrixFreeAuxiliarySpace.AppliesPreconditioner {R : Type}
    (s : MatrixFreeAuxiliarySpace R) : Prop :=
  s.aspacewrapper_ = WrapperTarget.aspacepc ∧ s.cg_ = none ∧ s.matfree_ = none

/-- The apply operator of `s` is a conjugate-gradient solve on
`conn^T curlcurl conn`, preconditioned by the preconditioner of `s`, with
relative tolerance `rel_tol` and maximum iteration count `max_iter`. -/
def MatrixFreeAuxiliarySpace.AppliesCG {R : Type} (s : MatrixFreeAuxiliarySpace R)
    (mem : Nat → R) (curlcurl conn : Operator R) (rel_tol : R) (max_iter : Int) : Prop :=
  s.aspacewrapper_ = WrapperTarget.cg ∧
  s.matfree_ = some (RAPOperator mem conn curlcurl conn) ∧
  ∃ cg, s.cg_ = some cg ∧ cg.oper = some (RAPOperator mem conn curlcurl conn) ∧
    cg.prec = some s.aspacepc_ ∧ cg.rel_tol = rel_tol ∧ cg.max_iter = max_iter

/-- The entry of index `i` of `v`, if there is one, is zero. -/
def Vector.ZeroAt {R : Type} [Zero R] (v : Vector R) (i : Nat) : Prop :=
  ∀ a, v[i]? = some a → a = 0

/-- The solver on rational vectors that returns its input. -/
def demoSolver (n : Nat) : Solver ℚ :=
  { height := n, Mult := fun x _ => x }

/-- External routines for the examples: the essential true dofs are `[1]`, the
assembled matrix has two rows, and every algebraic solver returns its input. -/
def demoExternal : External ℚ :=
  { GetEssentialTrueDofs := fun _ _ => [1]
    ParallelAssemble := fun _ => { height := 2, width := 2, id := 0 }
    HypreBoomerAMG := fun mat _ => demoSolver mat.height
    AmgXSolver := fun mat => demoSolver mat.height
    UMFPackSolver := fun mat => demoSolver mat.height
    MFEM_USE_AMGX := false }

/-- A system operator on three entries: the identity. -/
def demoCurlCurl : Operator ℚ :=
  { height := 3, width := 3, Mult := fun v _ => v, MultTranspose := fun v _ => v }

/-- An inter-space operator from two entries to three:
`[a, b]` is mapped to `[a, b, a + b]`. -/
def demoGrad : Operator ℚ :=
  { height := 3, width := 2
    Mult := fun v _ => [v.getD 0 0, v.getD 1 0, v.getD 0 0 + v.getD 1 0]
    MultTranspose := fun v _ => [v.getD 0 0 + v.getD 2 0, v.getD 1 0 + v.getD 2 0] }

/-- A system operator of four columns, which `demoGrad` (of three rows) does
not match. -/
def demoCurlCurlWide : Operator ℚ :=
  { height := 3, width := 4, Mult := fun v _ => v.take 3, MultTranspose := fun v _ => v ++ [0] }

/-- The pointers of `s` are as the constructors leave them: either there is no
conjugate-gradient solver and `aspacewrapper_` designates the preconditioner,
or `aspacewrapper_` designates the conjugate-gradient solver, which has an
operator. -/
def MatrixFreeAuxiliarySpace.WellFormed {R : Type} (s : MatrixFreeAuxiliarySpace R) : Prop :=
  (s.aspacewrapper_ = WrapperTarget.aspacepc ∧ s.cg_ = none) ∨
  (s.aspacewrapper_ = WrapperTarget.cg ∧ ∃ cg A, s.cg_ = some cg ∧ cg.oper = some A)

/-! ## Ownership: addresses, `delete` and the destructors -/

/-- The address of an object allocated with `new`. -/
abbrev Ptr := Nat

/-- The statement `delete p;` on the record of the releases made so far: the
object `p` designates is released; `delete` of a null pointer does nothing. -/
def delete (released : List Ptr) (p : Option Ptr) : List Ptr :=
  match p with
  | some a => released ++ [a]
  | none => released

/-- In the sequence of releases `D`, the object at `a` is released before the
object at `b`. -/
def ReleasedBefore (D : List Ptr) (a b : Ptr) : Prop :=
  a ∈ D ∧ b ∈ D ∧ D.indexOf a < D.indexOf b

instance (D : List Ptr) (a b : Ptr) : Decidable (ReleasedBefore D a b) := by
  unfold ReleasedBefore
  infer_instance

/-- The pointer members of `MatrixFreeAMS` that its destructor deletes. -/
structure MatrixFreeAMS where
  smoother_ : Option Ptr
  pa_grad_ : Option Ptr
  pa_interp_ : Option Ptr
  Gspacesolver_ : Option Ptr
  Pispacesolver_ : Option Ptr
  general_ams_ : Option Ptr
  h1_fespace_ : Option Ptr
  h1_fespace_d_ : Option Ptr
  deriving DecidableEq, Repr

namespace MatrixFreeAMS

/-- The addresses the `new` expressions of the constructor return, in the order
of their evaluation. -/
structure Addresses where
  smoother : Ptr
  h1_fec : Ptr
  h1_fespace : Ptr
  h1_fespace_d : Ptr
  pa_grad : Ptr
  pa_interp : Ptr
  Gspacesolver : Ptr
  Pispacesolver : Ptr
  general_ams : Ptr
  deriving DecidableEq, Repr

/-- The addresses are those of nine distinct objects. -/
def Addresses.Distinct (a : Addresses) : Prop :=
  [a.smoother, a.h1_fec, a.h1_fespace, a.h1_fespace_d, a.pa_grad, a.pa_interp,
    a.Gspacesolver, a.Pispacesolver, a.general_ams].Nodup

instance (a : Addresses) : Decidable a.Distinct := by
  unfold Addresses.Distinct
  infer_instance

/-- What the constructor leaves: the members, the pairs `(a, b)` of objects
allocated here such that the constructor of the object at `a` received a
pointer or a reference to the object at `b`, and the objects the constructor
itself released. -/
structure Built where
  self : MatrixFreeAMS
  references : List (Ptr × Ptr)
  released : List Ptr
  deriving DecidableEq, Repr

/-- The constructor `MatrixFreeAMS::MatrixFreeAMS` (lines 480-545), as to the
objects it allocates and the pointers and references it hands on.  The
operators `G_` and `Pi_` are formed by `pa_grad_` and `pa_interp_`
(`FormRectangularSystemMatrix`): a reference to `*G_` or `*Pi_` is recorded as a
reference to the object that formed it.  The arguments of the constructor
(`aform`, `oper`, `nd_fespace`, the coefficients) and the local `mesh_lor` are
not owned and not recorded. -/
def new (a : Addresses) : Built :=
  -- smoother
  let smoother_ := a.smoother
  let references : List (Ptr × Ptr) := []
  -- get H1 space
  let h1_fec := a.h1_fec
  let h1_fespace_ := a.h1_fespace
  let references := references ++ [(h1_fespace_, h1_fec)]
  let h1_fespace_d_ := a.h1_fespace_d
  let references := references ++ [(h1_fespace_d_, h1_fec)]
  -- build G operator
  let pa_grad_ := a.pa_grad
  let references := references ++ [(pa_grad_, h1_fespace_)]
  let G_ := pa_grad_
  -- build Pi operator
  let pa_interp_ := a.pa_interp
  let references := references ++ [(pa_interp_, h1_fespace_d_)]
  let Pi_ := pa_interp_
  -- build G space solver
  let Gspacesolver_ := a.Gspacesolver
  let references := references ++ [(Gspacesolver_, G_)]
  -- build Pi space solver
  let Pispacesolver_ := a.Pispacesolver
  let references := references ++ [(Pispacesolver_, Pi_)]
  let general_ams_ := a.general_ams
  let references := references ++
    [(general_ams_, Pi_), (general_ams_, G_), (general_ams_, Pispacesolver_),
     (general_ams_, Gspacesolver_), (general_ams_, smoother_)]
  let released := delete [] (some h1_fec)
  { self :=
      { smoother_ := some smoother_, pa_grad_ := some pa_grad_, pa_interp_ := some pa_interp_,
        Gspacesolver_ := some Gspacesolver_, Pispacesolver_ := some Pispacesolver_,
        general_ams_ := some general_ams_, h1_fespace_ := some h1_fespace_,
        h1_fespace_d_ := some h1_fespace_d_ }
    references := references
    released := released }

/-- The destructor `MatrixFreeAMS::~MatrixFreeAMS` (lines 547-561): the
sequence of the releases it performs. -/
def destructor (self : MatrixFreeAMS) : List Ptr :=
  let released : List Ptr := []
  let released := delete released self.smoother_
  let released := delete released self.pa_grad_
  let released := delete released self.pa_interp_
  let released := delete released self.Gspacesolver_
  let released := delete released self.Pispacesolver_
  let released := delete released self.general_ams_
  let released := delete released self.h1_fespace_
  let released := delete released self.h1_fespace_d_
  released

end MatrixFreeAMS

/-- Nine distinct addresses for the examples. -/
def demoAddresses : MatrixFreeAMS.Addresses :=
  { smoother := 10, h1_fec := 11, h1_fespace := 12, h1_fespace_d := 13, pa_grad := 14,
    pa_interp := 15, Gspacesolver := 16, Pispacesolver := 17, general_ams := 18 }

namespace MatrixFreeAuxiliarySpace

/-- The addresses of the objects a `MatrixFreeAuxiliarySpace` allocates: the
matrix (`ParallelAssemble`), the preconditioner (`SetupBoomerAMG`), and the
triple product and the conjugate-gradient solver (`SetupCG`). -/
structure Addresses where
  aspacematrix : Ptr
  aspacepc : Ptr
  matfree : Ptr
  cg : Ptr
  deriving DecidableEq, Repr

/-- The addresses are those of four distinct objects. -/
def Addresses.Distinct (a : Addresses) : Prop :=
  [a.aspacematrix, a.aspacepc, a.matfree, a.cg].Nodup

instance (a : Addresses) : Decidable a.Distinct := by
  unfold Addresses.Distinct
  infer_instance

/-- The pointer members of `MatrixFreeAuxiliarySpace`; `none` is the null
pointer. -/
structure Pointers where
  aspacematrix_ : Option Ptr
  aspacepc_ : Option Ptr
  matfree_ : Option Ptr
  cg_ : Option Ptr
  aspacewrapper_ : Option Ptr
  deriving DecidableEq, Repr

/-- The pointer members of a solver whose objects lie at the addresses `a`:
`aspacematrix_` and `aspacepc_` are assigned by both constructors, `matfree_`
and `cg_` are null unless `SetupCG` assigned them, and `aspacewrapper_` is the
copy of `cg_` (`SetupCG`) or of `aspacepc_` (`SetupVCycle`). -/
def pointers {R : Type} (s : MatrixFreeAuxiliarySpace R) (a : Addresses) : Pointers :=
  let aspacepc_ := some a.aspacepc
  let cg_ := s.cg_.map (fun _ => a.cg)
  { aspacematrix_ := some a.aspacematrix
    aspacepc_ := aspacepc_
    matfree_ := s.matfree_.map (fun _ => a.matfree)
    cg_ := cg_
    aspacewrapper_ :=
      match s.aspacewrapper_ with
      | WrapperTarget.aspacepc => aspacepc_
      | WrapperTarget.cg => cg_ }

/-- The objects the solver owns: those its four owning pointers designate. -/
def Pointers.owned (p : Pointers) : List Ptr :=
  [p.aspacematrix_, p.aspacepc_, p.matfree_, p.cg_].filterMap id

/-- The destructor `MatrixFreeAuxiliarySpace::~MatrixFreeAuxiliarySpace` (lines
466-478): the sequence of the releases it performs. -/
def destructor (p : Pointers) : List Ptr :=
  let released : List Ptr := []
  let released := delete released p.aspacematrix_
  let released := delete released p.aspacepc_
  let released := delete released p.matfree_
  let released := if p.aspacepc_ ≠ p.aspacewrapper_ then delete released p.aspacewrapper_
    else released
  let released := if p.cg_ ≠ p.aspacewrapper_ then delete released p.cg_ else released
  released

end MatrixFreeAuxiliarySpace

/-- Four distinct addresses for the examples. -/
def demoSpaceAddresses : MatrixFreeAuxiliarySpace.Addresses :=
  { aspacematrix := 20, aspacepc := 21, matfree := 22, cg := 23 }

namespace StageMaps

variable {R : Type} [CommRing R]

/-- The correction of the G space, `Mg = G Bg G^T`. -/
def Mg (m : StageMaps R) (r : Vector R) : Vector R := m.G (m.Bg (m.Gt r))

/-- The correction of the Pi space, `Mpi = Pi Bpi Pi^T`. -/
def Mpi (m : StageMaps R) (r : Vector R) : Vector R := m.Pi (m.Bpi (m.Pit r))

/-- The residual a smoothing stage leaves of the residual `r`:
`Rs(r) = r - A S(r)`. -/
def Rs (m : StageMaps R) (r : Vector R) : Vector R := Vector.minus r (m.A (m.S r))

/-- The residual a G-space stage leaves of the residual `r`:
`Rg(r) = r - A Mg(r)`. -/
def Rg (m : StageMaps R) (r : Vector R) : Vector R := Vector.minus r (m.A (m.Mg r))

/-- The residual a Pi-space stage leaves of the residual `r`:
`Rpi(r) = r - A Mpi(r)`. -/
def Rpi (m : StageMaps R) (r : Vector R) : Vector R := Vector.minus r (m.A (m.Mpi r))

/-- The system operator is additive on vectors of `n` entries:
`A (u + v) = A u + A v`. -/
def AdditiveA (m : StageMaps R) (n : Nat) : Prop :=
  ∀ u v : Vector R, u.Size = n → v.Size = n →
    m.A (Vector.plus u v) = Vector.plus (m.A u) (m.A v)

end StageMaps

/-! ## The cycle of matrices -/

/-- The entries of a vector as a function on `Fin n`; an entry past the end
reads as zero. -/
def Vector.toFn {R : Type} [Zero R] (n : Nat) (v : Vector R) : Fin n → R :=
  fun i => v.getD i 0

/-- The operator of the matrix `M`: `Mult` is the product with `M` and
`MultTranspose` the product with the transpose of `M`; both overwrite the
output vector. -/
def Operator.ofMatrix {R : Type} [CommRing R] {h w : Nat} (M : Matrix (Fin h) (Fin w) R) :
    Operator R :=
  { height := h
    width := w
    Mult := fun x _ => List.ofFn (M.mulVec (Vector.toFn w x))
    MultTranspose := fun x _ => List.ofFn (M.transpose.mulVec (Vector.toFn h x)) }

/-- The stage maps of the matrices `A`, `S`, `G`, `Bg`, `Pi` and `Bpi`. -/
def StageMaps.ofMatrices {R : Type} [CommRing R] {n ng npi : Nat}
    (A S : Matrix (Fin n) (Fin n) R) (G : Matrix (Fin n) (Fin ng) R)
    (Bg : Matrix (Fin ng) (Fin ng) R) (Pi : Matrix (Fin n) (Fin npi) R)
    (Bpi : Matrix (Fin npi) (Fin npi) R) : StageMaps R :=
  { S := fun v => (Operator.ofMatrix S).Mult v []
    A := fun v => (Operator.ofMatrix A).Mult v []
    G := fun v => (Operator.ofMatrix G).Mult v []
    Gt := fun v => (Operator.ofMatrix G).MultTranspose v []
    Bg := fun v => (Operator.ofMatrix Bg).Mult v []
    Pi := fun v => (Operator.ofMatrix Pi).Mult v []
    Pit := fun v => (Operator.ofMatrix Pi).MultTranspose v []
    Bpi := fun v => (Operator.ofMatrix Bpi).Mult v [] }

/-- The cycle whose collaborators are the operators of the matrices `A`, `S`,
`G`, `Bg`, `Pi` and `Bpi`. -/
def GeneralAMS.ofMatrices {R : Type} [CommRing R] {n ng npi : Nat}
    (A S : Matrix (Fin n) (Fin n) R) (G : Matrix (Fin n) (Fin ng) R)
    (Bg : Matrix (Fin ng) (Fin ng) R) (Pi : Matrix (Fin n) (Fin npi) R)
    (Bpi : Matrix (Fin npi) (Fin npi) R) (ess_tdof_list : List Int) : GeneralAMS R :=
  GeneralAMS.new (Operator.ofMatrix A) (Operator.ofMatrix Pi) (Operator.ofMatrix G)
    (Operator.ofMatrix Bpi) (Operator.ofMatrix Bg) (Operator.ofMatrix S) ess_tdof_list

/-- The matrix of the five-stage cycle: `Y1 = S`, `Y2 = Y1 + Mg (1 - A Y1)`,
`Y3 = Y2 + Mpi (1 - A Y2)`, `Y4 = Y3 + Mg (1 - A Y3)` and
`Y5 = Y4 + S (1 - A Y4)`, with `Mg = G Bg G^T` and `Mpi = Pi Bpi Pi^T`. -/
def cycleMatrix {R : Type} [CommRing R] {n ng npi : Nat}
    (A S : Matrix (Fin n) (Fin n) R) (G : Matrix (Fin n) (Fin ng) R)
    (Bg : Matrix (Fin ng) (Fin ng) R) (Pi : Matrix (Fin n) (Fin npi) R)
    (Bpi : Matrix (Fin npi) (Fin npi) R) : Matrix (Fin n) (Fin n) R :=
  let Mg := G * Bg * G.transpose
  let Mpi := Pi * Bpi * Pi.transpose
  let Y1 := S
  let Y2 := Y1 + Mg * (1 - A * Y1)
  let Y3 := Y2 + Mpi * (1 - A * Y2)
  let Y4 := Y3 + Mg * (1 - A * Y3)
  Y4 + S * (1 - A * Y4)

/-- A symmetric system matrix on two entries. -/
def demoMatrixA : Matrix (Fin 2) (Fin 2) Int := Matrix.of ![![2, 1], ![1, 3]]

/-- A symmetric smoother on two entries. -/
def demoMatrixS : Matrix (Fin 2) (Fin 2) Int := Matrix.of ![![1, 0], ![0, 2]]

/-- A gradient from one entry to two. -/
def demoMatrixG : Matrix (Fin 2) (Fin 1) Int := Matrix.of ![![1], ![-1]]

/-- A solver of the G space on one entry. -/
def demoMatrixBg : Matrix (Fin 1) (Fin 1) Int := Matrix.of ![![3]]

/-- An interpolation from two entries to two, not symmetric. -/
def demoMatrixPi : Matrix (Fin 2) (Fin 2) Int := Matrix.of ![![1, 2], ![0, 1]]

/-- A symmetric solver of the Pi space on two entries. -/
def demoMatrixBpi : Matrix (Fin 2) (Fin 2) Int := Matrix.of ![![1, 1], ![1, 0]]

/-! ### Successive calls of `MatrixFreeAuxiliarySpace::Mult` -/

/-- The calls `Mult(x, y)` made on one solver, one after the other: the outputs
in the order of the calls, and the solver after the last call.  Each call comes
with the content of newly allocated storage, its input `x` and the content of
`y` on entry. -/
def MatrixFreeAuxiliarySpace.MultSequence {R : Type} [LinearOrderedField R]
    (self : MatrixFreeAuxiliarySpace R) :
    List ((Nat → R) × Vector R × Vector R) →
      Except Failure (List (Vector R) × MatrixFreeAuxiliarySpace R)
  | [] => pure ([], self)
  | (mem, x, y) :: calls => do
    let (out, self) ← self.Mult mem x y
    let (outs, self) ← MatrixFreeAuxiliarySpace.MultSequence self calls
    pure (out :: outs, self)

/-- The state of a G-space solver between calls: the preconditioner is the
`ZeroWrap` over the list of essential dofs of the solver, and the apply operator
is either that preconditioner, or a conjugate-gradient solver with an operator,
preconditioned by it. -/
def MatrixFreeAuxiliarySpace.ZeroWrapped {R : Type} [Zero R] (ext : External R) (useAMGx : Bool)
    (s : MatrixFreeAuxiliarySpace R) : Prop :=
  s.aspacepc_ = (ZeroWrap.new ext s.aspacematrix_ s.ess_tdof_list_ useAMGx).toSolver ∧
  ((s.aspacewrapper_ = WrapperTarget.aspacepc ∧ s.cg_ = none) ∨
    (s.aspacewrapper_ = WrapperTarget.cg ∧
      ∃ cg A, s.cg_ = some cg ∧ cg.oper = some A ∧ cg.prec = some s.aspacepc_))

end mfem

/-! # Theorems -/

namespace mfem

/-! ## Evaluation lemmas -/

section Helpers

variable {R : Type}

theorem MFEM_ASSERT_true (msg : String) : MFEM_ASSERT true msg = Except.ok () := rfl

theorem Except_ok_map {ε α β : Type} (a : α) (f : α → β) :
    (f <$> (Except.ok a : Except ε α)) = Except.ok (f a) := rfl

theorem Except_pure {ε α : Type} (a : α) : (pure a : Except ε α) = Except.ok a := rfl

theorem Except_ok_bind {ε α β : Type} (a : α) (f : α → Except ε β) :
    (Except.ok a >>= f) = f a := rfl

theorem Returns_ok {ε α : Type} (a : α) (post : α → Prop) :
    Returns (Except.ok a : Except ε α) post = post a := rfl

theorem Returns_iff {ε α : Type} (e : Except ε α) (post : α → Prop) :
    Returns e post ↔ ∃ a, e = Except.ok a ∧ post a := by
  cases e with
  | error err => simp [Returns]
  | ok a => simp [Returns]

namespace Vector

theorem Size_create (mem : Nat → R) (n : Nat) : (Vector.create mem n).Size = n := by
  simp [Vector.create, Vector.Size]

theorem Size_SetSize (v : Vector R) (mem : Nat → R) (n : Nat) :
    (Vector.SetSize v mem n).Size = n := Size_create mem n

theorem Size_zipWith_of (f : R → R → R) (y v : Vector R) (n : Nat)
    (hy : y.Size = n) (hv : v.Size = n) : Vector.Size (List.zipWith f y v) = n := by
  simp [Vector.Size] at *
  omega

theorem Size_minus_of [Sub R] (y v : Vector R) (n : Nat)
    (hy : y.Size = n) (hv : v.Size = n) : (Vector.minus y v).Size = n :=
  Size_zipWith_of _ y v n hy hv

theorem Size_scale_of [Mul R] (v : Vector R) (c : R) (n : Nat) (h : v.Size = n) :
    (v.scale c).Size = n := by simpa [Vector.scale, Vector.Size] using h

theorem Size_assign_of (v : Vector R) (c : R) (n : Nat) (h : v.Size = n) :
    (v.assign c).Size = n := by simpa [Vector.assign, Vector.Size] using h

/-- The update `y += v` succeeds on vectors of one size. -/
theorem addAssign_ok [Add R] (n : Nat) (y v : Vector R) (hy : y.Size = n) (hv : v.Size = n) :
    Vector.addAssign y v = Except.ok (List.zipWith (fun a b => a + b) y v) := by
  simp [Vector.addAssign, hy, hv, MFEM_ASSERT]
  rfl

/-- The update `y += v` succeeds only on vectors of one size. -/
theorem addAssign_eq_ok_iff [Add R] (y v r : Vector R) :
    Vector.addAssign y v = Except.ok r ↔
      y.Size = v.Size ∧ r = List.zipWith (fun a b => a + b) y v := by
  by_cases h : y.Size = v.Size
  · rw [addAssign_ok v.Size y v h rfl]
    constructor
    · intro e
      injection e with e
      exact ⟨h, e.symm⟩
    · rintro ⟨_, e⟩
      rw [e]
  · constructor
    · intro e
      simp [Vector.addAssign, MFEM_ASSERT, h, bind, Except.bind, throw, throwThe,
        MonadExceptOf.throw] at e
    · rintro ⟨e, _⟩
      exact absurd e h

/-- Negating `a` and adding `x`, as `FormResidual` does, gives `x - a`. -/
theorem residual_eq [CommRing R] (a x : Vector R) :
    List.zipWith (fun u v => u + v) (Vector.scale a (-1)) x = Vector.minus x a := by
  induction a generalizing x with
  | nil => cases x <;> simp [Vector.scale, Vector.minus]
  | cons h t ih =>
    cases x with
    | nil => simp [Vector.scale, Vector.minus]
    | cons b x =>
      have := ih x
      simp only [Vector.scale, Vector.minus, List.map_cons, List.zipWith_cons_cons] at this ⊢
      rw [this]
      congr 1
      ring

end Vector

end Helpers

namespace StageMaps

theorem Size_residual {R : Type} [CommRing R] (m : StageMaps R) {n ng npi : Nat} (hs : m.Shaped n ng npi)
    (x y : Vector R) (hx : x.Size = n) (hy : y.Size = n) : (m.residual x y).Size = n :=
  Vector.Size_minus_of x (m.A y) n hx (hs.A y hy)

theorem Size_gCorrection {R : Type} (m : StageMaps R) {n ng npi : Nat} (hs : m.Shaped n ng npi)
    (r : Vector R) (hr : r.Size = n) : (m.G (m.Bg (m.Gt r))).Size = n :=
  hs.G _ (hs.Bg _ (hs.Gt r hr))

theorem Size_piCorrection {R : Type} (m : StageMaps R) {n ng npi : Nat} (hs : m.Shaped n ng npi)
    (r : Vector R) (hr : r.Size = n) : (m.Pi (m.Bpi (m.Pit r))).Size = n :=
  hs.Pi _ (hs.Bpi _ (hs.Pit r hr))

theorem Size_y1 {R : Type} [CommRing R] (m : StageMaps R) {n ng npi : Nat} (hs : m.Shaped n ng npi)
    (x : Vector R) (hx : x.Size = n) : (m.y1 x).Size = n := hs.S x hx

theorem Size_y2 {R : Type} [CommRing R] (m : StageMaps R) {n ng npi : Nat} (hs : m.Shaped n ng npi)
    (x : Vector R) (hx : x.Size = n) : (m.y2 x).Size = n :=
  Vector.Size_zipWith_of _ _ _ n (m.Size_y1 hs x hx)
    (m.Size_gCorrection hs _ (m.Size_residual hs x _ hx (m.Size_y1 hs x hx)))

theorem Size_y3 {R : Type} [CommRing R] (m : StageMaps R) {n ng npi : Nat} (hs : m.Shaped n ng npi)
    (x : Vector R) (hx : x.Size = n) : (m.y3 x).Size = n :=
  Vector.Size_zipWith_of _ _ _ n (m.Size_y2 hs x hx)
    (m.Size_piCorrection hs _ (m.Size_residual hs x _ hx (m.Size_y2 hs x hx)))

theorem Size_y4 {R : Type} [CommRing R] (m : StageMaps R) {n ng npi : Nat} (hs : m.Shaped n ng npi)
    (x : Vector R) (hx : x.Size = n) : (m.y4 x).Size = n :=
  Vector.Size_zipWith_of _ _ _ n (m.Size_y3 hs x hx)
    (m.Size_gCorrection hs _ (m.Size_residual hs x _ hx (m.Size_y3 hs x hx)))

end StageMaps

/-! ### The concrete instances satisfy the hypotheses -/

theorem demoDiag_Size (n : Nat) (c : Int) (v : Vector Int) : (demoDiag n c v).Size = n := by
  simp [demoDiag, Vector.Size]

theorem demoAMS_Computes : demoAMS.Computes demoMaps :=
  { smoother := fun _ _ => rfl, A := fun _ _ => rfl, g := fun _ _ => rfl, gT := fun _ _ => rfl,
    gspacesolver := fun _ _ => rfl, pi := fun _ _ => rfl, piT := fun _ _ => rfl,
    pispacesolver := fun _ _ => rfl }

theorem demoMaps_Shaped : demoMaps.Shaped 2 1 2 :=
  { S := fun v _ => demoDiag_Size 2 1 v, A := fun v _ => demoDiag_Size 2 2 v,
    G := fun _ _ => rfl, Gt := fun _ _ => rfl, Bg := fun v _ => demoDiag_Size 1 1 v,
    Pi := fun v _ => demoDiag_Size 2 1 v, Pit := fun v _ => demoDiag_Size 2 1 v,
    Bpi := fun v _ => demoDiag_Size 2 1 v }

theorem demoAMS_KeepsHeight :
    demoAMS.A_.KeepsHeight ∧ demoAMS.smoother_.KeepsHeight ∧
      demoAMS.g_.KeepsHeight ∧ demoAMS.pi_.KeepsHeight :=
  ⟨fun v _ _ => demoDiag_Size 2 2 v, fun v _ _ => demoDiag_Size 2 1 v,
    fun _ _ _ => rfl, fun v _ _ => demoDiag_Size 2 1 v⟩

/-! ## `GeneralAMS::Mult` -/

section Cycle

variable {R : Type} [CommRing R]

/-- C1: with the collaborators being functions `m` of compatible shapes, for
every input `x` of `A.Height()` entries and whatever `y` (of the size of `x`)
held on entry, `GeneralAMS::Mult` returns and the returned `y` is `y5`, where
`y1 = S x`, `y2 = y1 + G Bg(G^T (x - A y1))`, `y3 = y2 + Pi Bpi(Pi^T (x - A y2))`,
`y4 = y3 + G Bg(G^T (x - A y3))` and `y5 = y4 + S (x - A y4)`: the first
smoothing overwrites `y`, the last one is added. -/
theorem GeneralAMS.Mult_five_stage_cycle (ams : GeneralAMS R) (m : StageMaps R)
    (cuda : Bool) (mem : Nat → R) (x y : Vector R) (ng npi : Nat)
    (hxA : x.Size = ams.A_.height) (hxy : x.Size = y.Size)
    (hm : ams.Computes m) (hs : m.Shaped x.Size ng npi) :
    Returns ((ams.Mult cuda mem x y).run []) (fun r => r.1 = m.y5 x) := by
  have hy : y.Size = x.Size := hxy.symm
  have hx : ams.A_.height = x.Size := hxA.symm
  have hxx : x.Size = x.Size := rfl
  have s1 := m.Size_y1 hs x rfl
  have s2 := m.Size_y2 hs x rfl
  have s3 := m.Size_y3 hs x rfl
  have s4 := m.Size_y4 hs x rfl
  have a1 := Vector.Size_scale_of _ (-1) _ (hs.A _ s1)
  have a2 := Vector.Size_scale_of _ (-1) _ (hs.A _ s2)
  have a3 := Vector.Size_scale_of _ (-1) _ (hs.A _ s3)
  have a4 := Vector.Size_scale_of _ (-1) _ (hs.A _ s4)
  have c1 := m.Size_gCorrection hs _ (m.Size_residual hs x _ rfl s1)
  have c2 := m.Size_piCorrection hs _ (m.Size_residual hs x _ rfl s2)
  have c3 := m.Size_gCorrection hs _ (m.Size_residual hs x _ rfl s3)
  have c4 := hs.S _ (m.Size_residual hs x _ rfl s4)
  simp only [GeneralAMS.Mult, hx, hy, beq_self_eq_true, MFEM_ASSERT_true, Bool.false_eq_true,
    if_false, pure_bind, GeneralAMS.FormResidual, GeneralAMS.smoother_Mult,
    GeneralAMS.gspacesolver_Mult, GeneralAMS.pispacesolver_Mult, record, Except_ok_bind,
    Except_ok_map, StateT.run_bind, StateT.run_pure, StateT.run_modify, StateT.run_monadLift,
    StateT.run_lift, StateT.run_map, bind_pure_comp, map_pure, bind_assoc, monadLift_self,
    Except_pure, hm.smoother, hm.A, hm.g, hm.gT, hm.gspacesolver, hm.pi, hm.piT,
    hm.pispacesolver, Vector.residual_eq]
  iterate 8
    rw [Vector.addAssign_ok x.Size]
    rotate_left
    · assumption
    · assumption
    simp only [Except_ok_bind, Except_ok_map, StateT.run_bind, StateT.run_pure,
      StateT.run_modify, StateT.run_monadLift, StateT.run_lift, StateT.run_map, bind_pure_comp,
      map_pure, bind_assoc, pure_bind, monadLift_self, Except_pure, Vector.residual_eq]
  exact rfl

/-- Witness of C1: the cycle of `demoAMS` on `x = [1, 3]`, with `y = [5, 5]` on
entry, returns `y5 = [9, 11]`. -/
theorem GeneralAMS.Mult_five_stage_cycle_witness :
    demoAMS.Computes demoMaps ∧ demoMaps.Shaped 2 1 2 ∧ demoMaps.y5 [1, 3] = [9, 11] ∧
      Returns ((demoAMS.Mult false (fun _ => 7) [1, 3] [5, 5]).run [])
        (fun r => r.1 = demoMaps.y5 [1, 3]) :=
  ⟨demoAMS_Computes, demoMaps_Shaped, by decide,
    GeneralAMS.Mult_five_stage_cycle demoAMS demoMaps false (fun _ => 7) [1, 3] [5, 5] 1 2 rfl rfl
      demoAMS_Computes demoMaps_Shaped⟩

end Cycle

end mfem

namespace mfem

section CycleGeneral

variable {R : Type} [CommRing R]

/-- C2: with `extra_smoothing` off (the constant of the source), one call of
`GeneralAMS::Mult` on vectors satisfying its size preconditions, for arbitrary
collaborating operators, invokes the stage solvers in exactly the order
smoother, G-space solver, Pi-space solver, G-space solver, smoother: five
invocations and no more.  Each invocation is an application of that solver, on
the recorded input and on the output vector the source passes, and its output
is what enters `y`: the first smoothing gives the iterate, each auxiliary
solve gives the correction that `G` or `Pi` carries into the iterate, and the
last smoothing is added, `y = v4 + out5`. -/
theorem GeneralAMS.Mult_stage_order (ams : GeneralAMS R) (cuda : Bool) (mem : Nat → R)
    (x y : Vector R)
    (hxy : x.Size = y.Size) (hxA : x.Size = ams.A_.height)
    (hg : ams.g_.height = ams.A_.height) (hpi : ams.pi_.height = ams.A_.height)
    (hs : ams.smoother_.height = ams.A_.height)
    (cA : ams.A_.KeepsHeight) (cS : ams.smoother_.KeepsHeight)
    (cG : ams.g_.KeepsHeight) (cPi : ams.pi_.KeepsHeight) :
    Returns ((ams.Mult cuda mem x y).run [])
      (fun r =>
        r.2.filterMap Call.stage? =
          [Stage.smoother, Stage.gspacesolver, Stage.pispacesolver, Stage.gspacesolver,
            Stage.smoother] ∧
        ∃ in2 in3 in4 in5 out1 out2 out3 out4 out5 v2 v3 v4 w2 w3 w4 : Vector R,
          r.2 =
            [Call.solve Stage.smoother x,
             Call.FormResidual x out1,
             Call.solve Stage.gspacesolver in2,
             Call.FormResidual x v2,
             Call.solve Stage.pispacesolver in3,
             Call.FormResidual x v3,
             Call.solve Stage.gspacesolver in4,
             Call.FormResidual x v4,
             Call.solve Stage.smoother in5] ∧
          out1 = ams.smoother_.Mult x (y.assign 0) ∧
          out2 = ams.gspacesolver_.Mult in2 ((Vector.create mem ams.g_.width).assign 0) ∧
          v2 = Vector.plus out1 (ams.g_.Mult out2 w2) ∧
          out3 = ams.pispacesolver_.Mult in3 ((Vector.SetSize [] mem ams.pi_.width).assign 0) ∧
          v3 = Vector.plus v2 (ams.pi_.Mult out3 w3) ∧
          out4 = ams.gspacesolver_.Mult in4 (out2.assign 0) ∧
          v4 = Vector.plus v3 (ams.g_.Mult out4 w4) ∧
          out5 = ams.smoother_.Mult in5 (Vector.create mem x.Size) ∧
          r.1 = Vector.plus v4 out5) := by
  have hy : y.Size = x.Size := hxy.symm
  have hx : ams.A_.height = x.Size := hxA.symm
  have hxx : x.Size = x.Size := rfl
  have hA : ∀ v out : Vector R, out.Size = x.Size → (ams.A_.Mult v out).Size = x.Size := by
    intro v out h; rw [← hx] at h ⊢; exact cA v out h
  have hS : ∀ v out : Vector R, out.Size = x.Size →
      (ams.smoother_.Mult v out).Size = x.Size := by
    intro v out h; rw [← hx, ← hs] at h ⊢; exact cS v out h
  have hG : ∀ v out : Vector R, out.Size = x.Size → (ams.g_.Mult v out).Size = x.Size := by
    intro v out h; rw [← hx, ← hg] at h ⊢; exact cG v out h
  have hPi : ∀ v out : Vector R, out.Size = x.Size → (ams.pi_.Mult v out).Size = x.Size := by
    intro v out h; rw [← hx, ← hpi] at h ⊢; exact cPi v out h
  simp only [GeneralAMS.Mult, hx, hy, beq_self_eq_true, MFEM_ASSERT_true, Bool.false_eq_true,
    if_false, pure_bind, GeneralAMS.FormResidual, GeneralAMS.smoother_Mult,
    GeneralAMS.gspacesolver_Mult, GeneralAMS.pispacesolver_Mult, record, Except_ok_bind,
    Except_ok_map, StateT.run_bind, StateT.run_pure, StateT.run_modify, StateT.run_monadLift,
    StateT.run_lift, StateT.run_map, bind_pure_comp, map_pure, bind_assoc, monadLift_self,
    Except_pure]
  iterate 8
    rw [Vector.addAssign_ok x.Size]
    rotate_left
    · apply_rules [hxx, hA, hS, hG, hPi, Vector.Size_zipWith_of, Vector.Size_scale_of,
        Vector.Size_assign_of, Vector.Size_create]
    · apply_rules [hxx, hA, hS, hG, hPi, Vector.Size_zipWith_of, Vector.Size_scale_of,
        Vector.Size_assign_of, Vector.Size_create]
    simp only [Except_ok_bind, Except_ok_map, StateT.run_bind, StateT.run_pure,
      StateT.run_modify, StateT.run_monadLift, StateT.run_lift, StateT.run_map, bind_pure_comp,
      map_pure, bind_assoc, pure_bind, monadLift_self, Except_pure]
  exact ⟨rfl, _, _, _, _, _, _, _, _, _, _, _, _, _, _, _, rfl, rfl, rfl, rfl, rfl, rfl, rfl, rfl,
    rfl, rfl⟩

/-- Witness of C2: the five stage invocations of `demoAMS` on `x = [1, 3]`. -/
theorem GeneralAMS.Mult_stage_order_witness :
    (demoAMS.A_.KeepsHeight ∧ demoAMS.smoother_.KeepsHeight ∧
      demoAMS.g_.KeepsHeight ∧ demoAMS.pi_.KeepsHeight) ∧
    Returns ((demoAMS.Mult false (fun _ => 7) [1, 3] [5, 5]).run [])
      (fun r =>
        r.2.filterMap Call.stage? =
          [Stage.smoother, Stage.gspacesolver, Stage.pispacesolver, Stage.gspacesolver,
            Stage.smoother] ∧
        ∃ in2 in3 in4 in5 out1 out2 out3 out4 out5 v2 v3 v4 w2 w3 w4 : Vector Int,
          r.2 =
            [Call.solve Stage.smoother [1, 3],
             Call.FormResidual [1, 3] out1,
             Call.solve Stage.gspacesolver in2,
             Call.FormResidual [1, 3] v2,
             Call.solve Stage.pispacesolver in3,
             Call.FormResidual [1, 3] v3,
             Call.solve Stage.gspacesolver in4,
             Call.FormResidual [1, 3] v4,
             Call.solve Stage.smoother in5] ∧
          out1 = demoAMS.smoother_.Mult [1, 3] (Vector.assign [5, 5] 0) ∧
          out2 = demoAMS.gspacesolver_.Mult in2
            ((Vector.create (fun _ => 7) demoAMS.g_.width).assign 0) ∧
          v2 = Vector.plus out1 (demoAMS.g_.Mult out2 w2) ∧
          out3 = demoAMS.pispacesolver_.Mult in3
            ((Vector.SetSize [] (fun _ => 7) demoAMS.pi_.width).assign 0) ∧
          v3 = Vector.plus v2 (demoAMS.pi_.Mult out3 w3) ∧
          out4 = demoAMS.gspacesolver_.Mult in4 (out2.assign 0) ∧
          v4 = Vector.plus v3 (demoAMS.g_.Mult out4 w4) ∧
          out5 = demoAMS.smoother_.Mult in5 (Vector.create (fun _ => 7) (Vector.Size [1, 3])) ∧
          r.1 = Vector.plus v4 out5) :=
  ⟨demoAMS_KeepsHeight,
    GeneralAMS.Mult_stage_order demoAMS false (fun _ => 7) [1, 3] [5, 5] rfl rfl rfl rfl rfl
      demoAMS_KeepsHeight.1 demoAMS_KeepsHeight.2.1 demoAMS_KeepsHeight.2.2.1
      demoAMS_KeepsHeight.2.2.2⟩

/-- C8: for every system operator `A` and all `x`, `y` with
`size(x) == size(y) == height(A)`, and `G`, `Pi` (and the smoother) of the
height of `A`, none of them resizing an output vector of its height,
`GeneralAMS::Mult` returns a `y` of the size of `x`; and an update `a += b`
returns only when `a` and `b` have equal sizes, so that every addition into `y`
on the way was between vectors of equal size. -/
theorem GeneralAMS.Mult_preserves_size (ams : GeneralAMS R) (cuda : Bool) (mem : Nat → R)
    (x y : Vector R)
    (hxy : x.Size = y.Size) (hxA : x.Size = ams.A_.height)
    (hg : ams.g_.height = ams.A_.height) (hpi : ams.pi_.height = ams.A_.height)
    (hs : ams.smoother_.height = ams.A_.height)
    (cA : ams.A_.KeepsHeight) (cS : ams.smoother_.KeepsHeight)
    (cG : ams.g_.KeepsHeight) (cPi : ams.pi_.KeepsHeight) :
    Returns ((ams.Mult cuda mem x y).run []) (fun r => r.1.Size = x.Size) ∧
    (∀ a b r : Vector R, Vector.addAssign a b = Except.ok r → a.Size = b.Size) := by
  refine ⟨?_, fun a b r h => ((Vector.addAssign_eq_ok_iff a b r).1 h).1⟩
  have hy : y.Size = x.Size := hxy.symm
  have hx : ams.A_.height = x.Size := hxA.symm
  have hxx : x.Size = x.Size := rfl
  have hA : ∀ v out : Vector R, out.Size = x.Size → (ams.A_.Mult v out).Size = x.Size := by
    intro v out h; rw [← hx] at h ⊢; exact cA v out h
  have hS : ∀ v out : Vector R, out.Size = x.Size →
      (ams.smoother_.Mult v out).Size = x.Size := by
    intro v out h; rw [← hx, ← hs] at h ⊢; exact cS v out h
  have hG : ∀ v out : Vector R, out.Size = x.Size → (ams.g_.Mult v out).Size = x.Size := by
    intro v out h; rw [← hx, ← hg] at h ⊢; exact cG v out h
  have hPi : ∀ v out : Vector R, out.Size = x.Size → (ams.pi_.Mult v out).Size = x.Size := by
    intro v out h; rw [← hx, ← hpi] at h ⊢; exact cPi v out h
  simp only [GeneralAMS.Mult, hx, hy, beq_self_eq_true, MFEM_ASSERT_true, Bool.false_eq_true,
    if_false, pure_bind, GeneralAMS.FormResidual, GeneralAMS.smoother_Mult,
    GeneralAMS.gspacesolver_Mult, GeneralAMS.pispacesolver_Mult, record, Except_ok_bind,
    Except_ok_map, StateT.run_bind, StateT.run_pure, StateT.run_modify, StateT.run_monadLift,
    StateT.run_lift, StateT.run_map, bind_pure_comp, map_pure, bind_assoc, monadLift_self,
    Except_pure]
  iterate 8
    rw [Vector.addAssign_ok x.Size]
    rotate_left
    · apply_rules [hxx, hA, hS, hG, hPi, Vector.Size_zipWith_of, Vector.Size_scale_of,
        Vector.Size_assign_of, Vector.Size_create]
    · apply_rules [hxx, hA, hS, hG, hPi, Vector.Size_zipWith_of, Vector.Size_scale_of,
        Vector.Size_assign_of, Vector.Size_create]
    simp only [Except_ok_bind, Except_ok_map, StateT.run_bind, StateT.run_pure,
      StateT.run_modify, StateT.run_monadLift, StateT.run_lift, StateT.run_map, bind_pure_comp,
      map_pure, bind_assoc, pure_bind, monadLift_self, Except_pure]
  simp only [Returns_ok]
  apply_rules [hxx, hA, hS, hG, hPi, Vector.Size_zipWith_of, Vector.Size_scale_of,
    Vector.Size_assign_of, Vector.Size_create]

/-- Witness of C8: `demoAMS` on two-entry vectors returns a two-entry vector. -/
theorem GeneralAMS.Mult_preserves_size_witness :
    (demoAMS.A_.KeepsHeight ∧ demoAMS.smoother_.KeepsHeight ∧
      demoAMS.g_.KeepsHeight ∧ demoAMS.pi_.KeepsHeight) ∧
    Returns ((demoAMS.Mult false (fun _ => 7) [1, 3] [5, 5]).run []) (fun r => r.1.Size = 2) :=
  ⟨demoAMS_KeepsHeight,
    (GeneralAMS.Mult_preserves_size demoAMS false (fun _ => 7) [1, 3] [5, 5] rfl rfl rfl rfl rfl
      demoAMS_KeepsHeight.1 demoAMS_KeepsHeight.2.1 demoAMS_KeepsHeight.2.2.1
      demoAMS_KeepsHeight.2.2.2).1⟩

end CycleGeneral

end mfem

namespace mfem

section Residual

variable {R : Type} [CommRing R]

/-- C3: the residual is recomputed from scratch before every correction.  With
the collaborators being functions `m` of compatible shapes,
`FormResidual(rhs, v, residual)` leaves `residual = rhs - A v` for every prior
content of the residual buffer (`rhs` and `v` are passed by const reference:
the embedding takes them as values and returns the residual alone), and `Mult`
calls it exactly four times, with right-hand side `x` and the current iterate
`y1`, `y2`, `y3`, `y4`, before the stages 2, 3, 4 and 5, each of which receives
the residual of that iterate. -/
theorem GeneralAMS.FormResidual_from_scratch (ams : GeneralAMS R) (m : StageMaps R)
    (cuda : Bool) (mem : Nat → R) (x y : Vector R) (ng npi : Nat)
    (hxA : x.Size = ams.A_.height) (hxy : x.Size = y.Size)
    (hm : ams.Computes m) (hs : m.Shaped x.Size ng npi) :
    (∀ (rhs v residual : Vector R) (tr : List (Call R)),
        rhs.Size = x.Size → v.Size = x.Size →
        (ams.FormResidual rhs v residual).run tr =
          Except.ok (m.residual rhs v, tr ++ [Call.FormResidual rhs v])) ∧
    Returns ((ams.Mult cuda mem x y).run [])
      (fun r => r.2 =
        [Call.solve Stage.smoother x,
         Call.FormResidual x (m.y1 x),
         Call.solve Stage.gspacesolver (m.Gt (m.residual x (m.y1 x))),
         Call.FormResidual x (m.y2 x),
         Call.solve Stage.pispacesolver (m.Pit (m.residual x (m.y2 x))),
         Call.FormResidual x (m.y3 x),
         Call.solve Stage.gspacesolver (m.Gt (m.residual x (m.y3 x))),
         Call.FormResidual x (m.y4 x),
         Call.solve Stage.smoother (m.residual x (m.y4 x))]) := by
  have hy : y.Size = x.Size := hxy.symm
  have hx : ams.A_.height = x.Size := hxA.symm
  have hxx : x.Size = x.Size := rfl
  have s1 := m.Size_y1 hs x rfl
  have s2 := m.Size_y2 hs x rfl
  have s3 := m.Size_y3 hs x rfl
  have s4 := m.Size_y4 hs x rfl
  have a1 := Vector.Size_scale_of _ (-1) _ (hs.A _ s1)
  have a2 := Vector.Size_scale_of _ (-1) _ (hs.A _ s2)
  have a3 := Vector.Size_scale_of _ (-1) _ (hs.A _ s3)
  have a4 := Vector.Size_scale_of _ (-1) _ (hs.A _ s4)
  have c1 := m.Size_gCorrection hs _ (m.Size_residual hs x _ rfl s1)
  have c2 := m.Size_piCorrection hs _ (m.Size_residual hs x _ rfl s2)
  have c3 := m.Size_gCorrection hs _ (m.Size_residual hs x _ rfl s3)
  have c4 := hs.S _ (m.Size_residual hs x _ rfl s4)
  constructor
  · intro rhs v residual tr hrhs hv
    simp only [GeneralAMS.FormResidual, record, Except_ok_bind, Except_ok_map, StateT.run_bind,
      StateT.run_pure, StateT.run_modify, StateT.run_monadLift, StateT.run_lift, StateT.run_map,
      bind_pure_comp, map_pure, bind_assoc, monadLift_self, Except_pure, hm.A, pure_bind]
    rw [Vector.addAssign_ok x.Size _ _ (Vector.Size_scale_of _ (-1) _ (hs.A v hv)) hrhs]
    simp only [Except_ok_map, Vector.residual_eq]
    rfl
  · simp only [GeneralAMS.Mult, hx, hy, beq_self_eq_true, MFEM_ASSERT_true, Bool.false_eq_true,
      if_false, pure_bind, GeneralAMS.FormResidual, GeneralAMS.smoother_Mult,
      GeneralAMS.gspacesolver_Mult, GeneralAMS.pispacesolver_Mult, record, Except_ok_bind,
      Except_ok_map, StateT.run_bind, StateT.run_pure, StateT.run_modify, StateT.run_monadLift,
      StateT.run_lift, StateT.run_map, bind_pure_comp, map_pure, bind_assoc, monadLift_self,
      Except_pure, hm.smoother, hm.A, hm.g, hm.gT, hm.gspacesolver, hm.pi, hm.piT,
      hm.pispacesolver, Vector.residual_eq]
    iterate 8
      rw [Vector.addAssign_ok x.Size]
      rotate_left
      · assumption
      · assumption
      simp only [Except_ok_bind, Except_ok_map, StateT.run_bind, StateT.run_pure,
        StateT.run_modify, StateT.run_monadLift, StateT.run_lift, StateT.run_map,
        bind_pure_comp, map_pure, bind_assoc, pure_bind, monadLift_self, Except_pure,
        Vector.residual_eq]
    exact rfl

/-- Witness of C3: the four residual formations of `demoAMS` on `x = [1, 3]`,
and the residual `[1, 3] - 2 [1, 3]` formed over a buffer holding `[8, 8, 8]`. -/
theorem GeneralAMS.FormResidual_from_scratch_witness :
    (demoAMS.FormResidual [1, 3] [1, 3] [8, 8, 8]).run [] =
        Except.ok ([-1, -3], [Call.FormResidual [1, 3] [1, 3]]) ∧
    Returns ((demoAMS.Mult false (fun _ => 7) [1, 3] [5, 5]).run [])
      (fun r => r.2.filterMap Call.residualArgs? =
        [([1, 3], [1, 3]), ([1, 3], [-3, -1]), ([1, 3], [4, 4]), ([1, 3], [-8, -8])]) := by
  have h := GeneralAMS.FormResidual_from_scratch demoAMS demoMaps false (fun _ => 7) [1, 3] [5, 5] 1 2
    rfl rfl demoAMS_Computes demoMaps_Shaped
  refine ⟨(h.1 [1, 3] [1, 3] [8, 8, 8] [] rfl rfl).trans rfl, ?_⟩
  obtain ⟨a, ha, hp⟩ := (Returns_iff _ _).1 h.2
  rw [ha, Returns_ok, hp]
  decide

end Residual

end mfem

namespace mfem

/-! ## `ZeroWrap::Mult` -/

section ZeroWrapLemmas

variable {R : Type}

theorem Vector.getElem?_setEntry_ne (v : Vector R) (k : Int) (c : R) (i : Nat)
    (h : k ≠ (i : Int)) : (Vector.setEntry v k c)[i]? = v[i]? := by
  unfold Vector.setEntry
  split
  · rename_i hk
    have hne : k.toNat ≠ i := by
      intro e
      apply h
      rw [← e, Int.toNat_of_nonneg hk]
    exact List.getElem?_set_ne hne
  · rfl

theorem Vector.Size_setEntry (v : Vector R) (k : Int) (c : R) :
    (Vector.setEntry v k c).Size = v.Size := by
  unfold Vector.setEntry Vector.Size
  split
  · exact List.length_set v k.toNat c
  · rfl

theorem Vector.ZeroAt_setEntry [Zero R] (v : Vector R) (k : Int) (i : Nat)
    (h : v.ZeroAt i ∨ (0 ≤ k ∧ k.toNat = i)) : (Vector.setEntry v k 0).ZeroAt i := by
  intro a ha
  unfold Vector.setEntry at ha
  split at ha
  · rw [List.getElem?_set] at ha
    split at ha
    · split at ha
      · exact (Option.some.inj ha).symm
      · exact absurd ha (by simp)
    · rcases h with h | ⟨_, h⟩
      · exact h a ha
      · rename_i hne
        exact absurd h (by assumption)
  · rename_i hk
    rcases h with h | ⟨h, _⟩
    · exact h a ha
    · exact absurd h hk

theorem Vector.foldl_setEntry_getElem? (L : List Int) (v : Vector R) (c : R) (i : Nat)
    (h : (i : Int) ∉ L) : (L.foldl (fun Y k => Vector.setEntry Y k c) v)[i]? = v[i]? := by
  induction L generalizing v with
  | nil => rfl
  | cons k L ih =>
    rw [List.foldl_cons, ih _ (fun hm => h (List.mem_cons_of_mem k hm))]
    exact Vector.getElem?_setEntry_ne v k c i (fun e => h (e ▸ List.mem_cons_self k L))

theorem Vector.foldl_setEntry_Size (L : List Int) (v : Vector R) (c : R) :
    (L.foldl (fun Y k => Vector.setEntry Y k c) v).Size = v.Size := by
  induction L generalizing v with
  | nil => rfl
  | cons k L ih => rw [List.foldl_cons, ih, Vector.Size_setEntry]

theorem Vector.foldl_setEntry_ZeroAt [Zero R] (L : List Int) (v : Vector R) (i : Nat)
    (h : v.ZeroAt i ∨ ∃ k ∈ L, 0 ≤ k ∧ k.toNat = i) :
    (L.foldl (fun Y k => Vector.setEntry Y k 0) v).ZeroAt i := by
  induction L generalizing v with
  | nil =>
    rcases h with h | ⟨k, hk, _⟩
    · exact h
    · exact absurd hk (List.not_mem_nil k)
  | cons j L ih =>
    rw [List.foldl_cons]
    apply ih
    rcases h with h | ⟨k, hk, hk0, hki⟩
    · exact Or.inl (Vector.ZeroAt_setEntry v j i (Or.inl h))
    · rcases List.mem_cons.1 hk with e | hmem
      · subst e
        exact Or.inl (Vector.ZeroAt_setEntry v k i (Or.inr ⟨hk0, hki⟩))
      · exact Or.inr ⟨k, hmem, hk0, hki⟩

/-- The output of `ZeroWrap::Mult` is zero at every listed index. -/
theorem ZeroWrap.Mult_zero_at_listed [Zero R] (zw : ZeroWrap R) (x y : Vector R) (k : Int)
    (hk : k ∈ zw.ess_tdof_list_) (h0 : 0 ≤ k) : (zw.Mult x y).ZeroAt k.toNat :=
  Vector.foldl_setEntry_ZeroAt _ _ _ (Or.inr ⟨k, hk, h0, rfl⟩)

theorem Vector.ZeroAt_iff [Zero R] (v : Vector R) (i : Nat) :
    v.ZeroAt i ↔ (i < v.Size → v[i]? = some 0) := by
  unfold Vector.ZeroAt Vector.Size
  constructor
  · intro h hi
    rw [List.getElem?_eq_getElem hi]
    exact congrArg some (h _ (List.getElem?_eq_getElem hi))
  · intro h a ha
    have hi : i < v.length := by
      by_contra hn
      rw [List.getElem?_eq_none (Nat.le_of_not_lt hn)] at ha
      exact absurd ha (by simp)
    rw [h hi] at ha
    exact (Option.some.inj ha).symm

end ZeroWrapLemmas

/-- C5: the zeroing wrapper touches only the listed entries.  For every input
`x` and every list `L` of essential dofs, the output of `ZeroWrap::Mult` has
the size of the output of the wrapped solver and agrees with it at every index
not in `L`; when `L` is empty the two outputs are identical. -/
theorem ZeroWrap.Mult_frame {R : Type} [Zero R] (zw : ZeroWrap R) (x y : Vector R) :
    (zw.Mult x y).Size = (zw.s.Mult x y).Size ∧
    (∀ i : Nat, (i : Int) ∉ zw.ess_tdof_list_ → (zw.Mult x y)[i]? = (zw.s.Mult x y)[i]?) ∧
    (zw.ess_tdof_list_ = [] → zw.Mult x y = zw.s.Mult x y) := by
  refine ⟨Vector.foldl_setEntry_Size _ _ _, ?_, ?_⟩
  · intro i hi
    exact Vector.foldl_setEntry_getElem? _ _ _ i hi
  · intro hL
    unfold ZeroWrap.Mult
    rw [hL]
    rfl

/-- Witness of C5: wrapping the solver that returns its input with the list
`[1]`, the entry of index `0` of the output for `[3, 4]` is the `3` of the
wrapped solver, and with the empty list the output is `[3, 4]`. -/
theorem ZeroWrap.Mult_frame_witness :
    ((ZeroWrap.new demoExternal ⟨2, 2, 0⟩ [1] false).Mult [3, 4] [0, 0])[0]? = some 3 ∧
    (ZeroWrap.new demoExternal ⟨2, 2, 0⟩ [] false).Mult [3, 4] [0, 0] = [3, 4] :=
  ⟨((ZeroWrap.Mult_frame (ZeroWrap.new demoExternal ⟨2, 2, 0⟩ [1] false) [3, 4] [0, 0]).2.1 0
      (by decide)).trans rfl,
    ((ZeroWrap.Mult_frame (ZeroWrap.new demoExternal ⟨2, 2, 0⟩ [] false) [3, 4] [0, 0]).2.2
      rfl).trans rfl⟩

end mfem

namespace mfem

/-! ## The G-space solver keeps essential dofs at zero -/

section Boundary

variable {R : Type} [LinearOrderedField R]

theorem Vector.ZeroAt_add (v1 v2 : Vector R) (alpha : R) (i : Nat)
    (h1 : v1.ZeroAt i) (h2 : v2.ZeroAt i) : (Vector.add v1 alpha v2).ZeroAt i := by
  intro a ha
  unfold Vector.add at ha
  obtain ⟨u, w, hu, hw, e⟩ := List.getElem?_zipWith_eq_some.1 ha
  rw [← e, h1 u hu, h2 w hw]
  simp

theorem Vector.ZeroAt_assign (v : Vector R) (i : Nat) : (v.assign 0).ZeroAt i := by
  intro a ha
  unfold Vector.assign at ha
  rw [List.getElem?_map] at ha
  cases hv : v[i]? with
  | none => rw [hv] at ha; exact absurd ha (by simp)
  | some b => rw [hv] at ha; exact (Option.some.inj ha).symm

/-- The conjugate-gradient iteration keeps an entry of the iterate at zero when
the preconditioner returns zero there and the entry is zero in the iterate and
in the search direction on entry. -/
theorem CGSolver.iteration_ZeroAt (cg : CGSolver R) (A : Operator R) (r0 : R) (B : Solver R)
    (k : Nat) (hprec : cg.prec = some B) (hB : ∀ r z : Vector R, (B.Mult r z).ZeroAt k)
    (fuel : Nat) (i : Int) (x r d z : Vector R) (nom den : R)
    (hx : x.ZeroAt k) (hd : d.ZeroAt k) :
    (CGSolver.iteration cg A r0 fuel i x r d z nom den).1.ZeroAt k := by
  induction fuel generalizing i x r d z nom den with
  | zero => exact hx
  | succ fuel ih =>
    have hx1 : (Vector.add x (nom / den) d).ZeroAt k := Vector.ZeroAt_add x d _ k hx hd
    simp only [CGSolver.iteration, hprec]
    split
    · exact hx1
    · split
      · exact hx1
      · split
        · exact hx1
        · exact ih _ _ _ _ _ _ _ hx1 (Vector.ZeroAt_add _ _ _ k (hB _ _) hd)

/-- A conjugate-gradient solve keeps an entry of the iterate at zero when the
preconditioner returns zero there and the entry is zero in the initial
iterate. -/
theorem CGSolver.Mult_keeps_zero (cg : CGSolver R) (A : Operator R) (B : Solver R) (k : Nat)
    (hoper : cg.oper = some A) (hprec : cg.prec = some B)
    (hB : ∀ r z : Vector R, (B.Mult r z).ZeroAt k)
    (mem : Nat → R) (b x : Vector R) (hx : x.ZeroAt k) :
    Returns (cg.Mult mem b x) (fun res => res.1.ZeroAt k) := by
  cases hmode : cg.iterative_mode with
  | true =>
    simp only [CGSolver.Mult, hoper, hprec, hmode, deref, pure_bind, Except_pure, Except_ok_bind,
      if_true]
    split
    · exact hx
    · split
      · exact hx
      · exact CGSolver.iteration_ZeroAt cg A _ B k hprec hB _ _ _ _ _ _ _ _ hx (hB _ _)
  | false =>
    have hx0 := Vector.ZeroAt_assign x k
    simp only [CGSolver.Mult, hoper, hprec, hmode, deref, pure_bind, Except_pure, Except_ok_bind,
      Bool.false_eq_true, if_false]
    split
    · exact hx0
    · split
      · exact hx0
      · exact CGSolver.iteration_ZeroAt cg A _ B k hprec hB _ _ _ _ _ _ _ _ hx0 (hB _ _)

end Boundary

end mfem

namespace mfem

namespace MatrixFreeAuxiliarySpace

section Construction

variable {R : Type} [LinearOrderedField R]

theorem Except_bind_eq_ok {ε α β : Type} {e : Except ε α} {f : α → Except ε β} {b : β}
    (h : (e >>= f) = Except.ok b) : ∃ a, e = Except.ok a ∧ f a = Except.ok b := by
  cases e with
  | error err => exact absurd h (by simp [bind, Except.bind])
  | ok a => exact ⟨a, rfl, h⟩

theorem MFEM_ASSERT_eq_ok (c : Bool) (msg : String) (u : Unit) :
    MFEM_ASSERT c msg = Except.ok u ↔ c = true := by
  cases c <;> simp [MFEM_ASSERT, pure, Except.pure, throw, throwThe, MonadExceptOf.throw]

/-- What `SetupCG` sets when it returns. -/
theorem SetupCG_ok (mem : Nat → R) (comm : MPI_Comm) (aspacepc_ : Solver R)
    (curlcurl_oper conn : Operator R) (n : Int) (very_verbose : Bool) (inner : InnerSolve R)
    (h : SetupCG mem comm aspacepc_ curlcurl_oper conn n very_verbose = Except.ok inner) :
    inner.aspacewrapper_ = WrapperTarget.cg ∧
    inner.matfree_ = some (RAPOperator mem conn curlcurl_oper conn) ∧
    ∃ cg, inner.cg_ = some cg ∧ cg.oper = some (RAPOperator mem conn curlcurl_oper conn) ∧
      cg.prec = some aspacepc_ ∧
      cg.rel_tol = (if n > 99 then 1e-14 else 0) ∧
      cg.max_iter = (if n > 99 then 100 else n) := by
  unfold SetupCG at h
  cases h1 : conn.height == curlcurl_oper.width
  · simp [h1, MFEM_ASSERT, bind, Except.bind, throw, throwThe, MonadExceptOf.throw] at h
  · cases h2 : (RAPOperator mem conn curlcurl_oper conn).height == aspacepc_.height
    · simp [h1, h2, MFEM_ASSERT, bind, Except.bind, throw, throwThe, MonadExceptOf.throw,
        pure, Except.pure] at h
    · simp only [h1, h2, MFEM_ASSERT_true, Except_ok_bind, Except_pure, pure_bind] at h
      injection h with h
      subst h
      refine ⟨rfl, rfl, _, rfl, ?_⟩
      by_cases hn : n > 99 <;> cases very_verbose <;>
        simp [hn, CGSolver.new, CGSolver.SetOperator, CGSolver.SetPreconditioner,
          CGSolver.SetRelTol, CGSolver.SetMaxIter, CGSolver.SetPrintLevel]

/-- What the G-space constructor has built when it returns. -/
theorem GSpace_ok (ext : External R) (useAMGx directSolve : Bool) (mem : Nat → R)
    (comm_ : MPI_Comm) (mesh_lor : ParMesh) (beta_coeff : Option Coefficient)
    (ess_bdr : List Int) (curlcurl_oper g : Operator R) (n : Int) (very_verbose : Bool)
    (s : MatrixFreeAuxiliarySpace R)
    (h : GSpace ext useAMGx directSolve mem comm_ mesh_lor beta_coeff ess_bdr curlcurl_oper g n
      very_verbose = Except.ok s) :
    s.height = curlcurl_oper.height ∧
    s.aspacepc_ = (ZeroWrap.new ext s.aspacematrix_ s.ess_tdof_list_ useAMGx).toSolver ∧
    (if n > 0 then
      ∃ inner, SetupCG mem comm_ s.aspacepc_ curlcurl_oper g n very_verbose = Except.ok inner ∧
        s.matfree_ = inner.matfree_ ∧ s.cg_ = inner.cg_ ∧
        s.aspacewrapper_ = inner.aspacewrapper_
     else s.matfree_ = none ∧ s.cg_ = none ∧ s.aspacewrapper_ = WrapperTarget.aspacepc) := by
  unfold GSpace at h
  cases beta_coeff with
  | none => simp [deref, bind, Except.bind, throw, throwThe, MonadExceptOf.throw] at h
  | some beta =>
    simp only [deref, Except_pure, Except_ok_bind, pure_bind] at h
    by_cases hn : n > 0
    · simp only [hn, if_true] at h ⊢
      obtain ⟨inner, hcg, h⟩ := Except_bind_eq_ok h
      injection h with h
      subst h
      exact ⟨rfl, rfl, inner, hcg, rfl, rfl, rfl⟩
    · simp only [hn, if_false, Except_pure, Except_ok_bind, pure_bind] at h ⊢
      injection h with h
      subst h
      exact ⟨rfl, rfl, rfl, rfl, rfl⟩

/-- A conjugate-gradient solve with an operator returns. -/
theorem CGSolver_Mult_ok (cg : CGSolver R) (A : Operator R) (hoper : cg.oper = some A)
    (mem : Nat → R) (b x : Vector R) : ∃ res, cg.Mult mem b x = Except.ok res := by
  simp only [CGSolver.Mult, hoper, deref, pure_bind, Except_pure, Except_ok_bind]
  split_ifs <;> exact ⟨_, rfl⟩

/-- The function `Mult` returns when the wrapper is the preconditioner, or a
conjugate-gradient solver with an operator. -/
theorem Mult_ok (s : MatrixFreeAuxiliarySpace R)
    (hw : (s.aspacewrapper_ = WrapperTarget.aspacepc ∧ s.cg_ = none) ∨
      (s.aspacewrapper_ = WrapperTarget.cg ∧
        ∃ cg A, s.cg_ = some cg ∧ cg.oper = some A ∧ cg.prec = some s.aspacepc_))
    (mem : Nat → R) (x y : Vector R) : ∃ res, s.Mult mem x y = Except.ok res := by
  rcases hw with ⟨hw, hcg⟩ | ⟨hw, cg, A, hcg, hoper, _⟩
  · simp only [Mult, hw, hcg, Except_pure, Except_ok_bind, pure_bind]
    exact ⟨_, rfl⟩
  · obtain ⟨res, hres⟩ := CGSolver_Mult_ok cg A hoper mem x (y.assign 0)
    simp only [Mult, hw, hcg, deref, hres, Except_pure, Except_ok_bind, pure_bind]
    split
    · exact ⟨_, rfl⟩
    · exact ⟨_, rfl⟩

/-- The output of `Mult` of a solver whose preconditioner returns zero at the
entry `k`, and whose conjugate-gradient solver, if any, is preconditioned by
it, is zero at the entry `k`. -/
theorem Mult_keeps_zero_entry (s : MatrixFreeAuxiliarySpace R) (k : Nat)
    (hpc : ∀ r z : Vector R, (s.aspacepc_.Mult r z).ZeroAt k)
    (hw : (s.aspacewrapper_ = WrapperTarget.aspacepc ∧ s.cg_ = none) ∨
      (s.aspacewrapper_ = WrapperTarget.cg ∧
        ∃ cg A, s.cg_ = some cg ∧ cg.oper = some A ∧ cg.prec = some s.aspacepc_))
    (mem : Nat → R) (x y : Vector R) :
    Returns (s.Mult mem x y) (fun res => res.1.ZeroAt k) := by
  rcases hw with ⟨hw, hcg⟩ | ⟨hw, cg, A, hcg, hoper, hprec⟩
  · simp only [Mult, hw, hcg, Except_pure, Except_ok_bind, pure_bind]
    exact hpc _ _
  · have hr := CGSolver.Mult_keeps_zero cg A s.aspacepc_ k hoper hprec hpc mem x (y.assign 0)
      (Vector.ZeroAt_assign y k)
    obtain ⟨res, hres, hz⟩ := (Returns_iff _ _).1 hr
    simp only [Mult, hw, hcg, deref, hres, Except_pure, Except_ok_bind, pure_bind]
    split <;> exact hz

end Construction

end MatrixFreeAuxiliarySpace

end mfem

namespace mfem

namespace MatrixFreeAuxiliarySpace

section PiConstruction

variable {R : Type} [LinearOrderedField R]

/-- What the Pi-space constructor has built when it returns. -/
theorem PiSpace_ok (ext : External R) (useAMGx directSolve : Bool) (mem : Nat → R)
    (comm_ : MPI_Comm) (mesh_lor : ParMesh) (alpha_coeff beta_coeff : Option Coefficient)
    (alpha_vcoeff beta_vcoeff : Option VectorCoefficient)
    (ess_bdr : List Int) (curlcurl_oper pi : Operator R) (n : Int)
    (s : MatrixFreeAuxiliarySpace R)
    (h : PiSpace ext useAMGx directSolve mem comm_ mesh_lor alpha_coeff beta_coeff alpha_vcoeff
      beta_vcoeff ess_bdr curlcurl_oper pi n = Except.ok s) :
    s.height = pi.width ∧
    (if n > 0 then
      ∃ inner, SetupCG mem comm_ s.aspacepc_ curlcurl_oper pi n false = Except.ok inner ∧
        s.matfree_ = inner.matfree_ ∧ s.cg_ = inner.cg_ ∧
        s.aspacewrapper_ = inner.aspacewrapper_
     else s.matfree_ = none ∧ s.cg_ = none ∧ s.aspacewrapper_ = WrapperTarget.aspacepc) := by
  unfold PiSpace at h
  cases alpha_coeff with
  | none => simp [bind, Except.bind, throw, throwThe, MonadExceptOf.throw] at h
  | some alpha =>
    cases beta_coeff with
    | some beta =>
      simp only [Except_pure, Except_ok_bind, pure_bind] at h
      by_cases hn : n > 0
      · simp only [hn, if_true] at h ⊢
        obtain ⟨inner, hcg, h⟩ := Except_bind_eq_ok h
        injection h with h
        subst h
        exact ⟨rfl, inner, hcg, rfl, rfl, rfl⟩
      · simp only [hn, if_false, Except_pure, Except_ok_bind, pure_bind] at h ⊢
        injection h with h
        subst h
        exact ⟨rfl, rfl, rfl, rfl⟩
    | none =>
      cases beta_vcoeff with
      | none =>
        simp [deref, bind, Except.bind, throw, throwThe, MonadExceptOf.throw, pure, Except.pure] at h
      | some q =>
        simp only [deref, Except_pure, Except_ok_bind, pure_bind] at h
        by_cases hn : n > 0
        · simp only [hn, if_true] at h ⊢
          obtain ⟨inner, hcg, h⟩ := Except_bind_eq_ok h
          injection h with h
          subst h
          exact ⟨rfl, inner, hcg, rfl, rfl, rfl⟩
        · simp only [hn, if_false, Except_pure, Except_ok_bind, pure_bind] at h ⊢
          injection h with h
          subst h
          exact ⟨rfl, rfl, rfl, rfl⟩

/-- The inner solve `SetupCG` or `SetupVCycle` leaves, by the iteration
count. -/
theorem inner_solve_cases (s : MatrixFreeAuxiliarySpace R) (mem : Nat → R) (comm_ : MPI_Comm)
    (curlcurl_oper conn : Operator R) (n : Int) (very_verbose : Bool)
    (h : if n > 0 then
      ∃ inner, SetupCG mem comm_ s.aspacepc_ curlcurl_oper conn n very_verbose
          = Except.ok inner ∧
        s.matfree_ = inner.matfree_ ∧ s.cg_ = inner.cg_ ∧
        s.aspacewrapper_ = inner.aspacewrapper_
     else s.matfree_ = none ∧ s.cg_ = none ∧ s.aspacewrapper_ = WrapperTarget.aspacepc) :
    (n ≤ 0 → s.AppliesPreconditioner) ∧
    (1 ≤ n → n ≤ 99 → s.AppliesCG mem curlcurl_oper conn 0 n) ∧
    (99 < n → s.AppliesCG mem curlcurl_oper conn 1e-14 100) ∧
    (0 < n → ∃ cg, s.cg_ = some cg ∧ cg.max_iter = min n 100) := by
  by_cases hn : n > 0
  · rw [if_pos hn] at h
    obtain ⟨inner, hcg, h1, h2, h3⟩ := h
    obtain ⟨i1, i2, cg, i3, i4, i5, i6, i7⟩ := SetupCG_ok mem comm_ s.aspacepc_ curlcurl_oper
      conn n very_verbose inner hcg
    refine ⟨fun h0 => absurd hn (by omega), ?_, ?_, ?_⟩
    · intro _ h99
      have hc : ¬ n > 99 := by omega
      rw [if_neg hc] at i6 i7
      exact ⟨h3.trans i1, h1.trans i2, cg, h2.trans i3, i4, i5, i6, i7⟩
    · intro h99
      have hc : n > 99 := h99
      rw [if_pos hc] at i6 i7
      exact ⟨h3.trans i1, h1.trans i2, cg, h2.trans i3, i4, i5, i6, i7⟩
    · intro _
      refine ⟨cg, h2.trans i3, ?_⟩
      rw [i7]
      split <;> omega
  · rw [if_neg hn] at h
    refine ⟨fun _ => ⟨h.2.2, h.2.1, h.1⟩, ?_, ?_, ?_⟩
    · intro h1 _
      exact absurd h1 (by omega)
    · intro h99
      exact absurd h99 (by omega)
    · intro h0
      exact absurd h0 hn

end PiConstruction

/-- C6: the inner solve of an auxiliary-space solver is determined by
`cg_iterations = n`.  For a solver `s` returned by the G-space or by the
Pi-space constructor with inter-space operator `conn`: if `n <= 0` the apply
operator is the preconditioner itself and there is no conjugate-gradient
solver; if `1 <= n <= 99` it is the conjugate-gradient solve on
`conn^T curlcurl conn` preconditioned by the preconditioner, with relative
tolerance `0` and maximum iteration count `n`; if `n > 99` it is that solve
with relative tolerance `1e-14` and maximum iteration count `100`; so for
`n > 0` the maximum is `min n 100`. -/
theorem inner_solve_by_cg_iterations {R : Type} [LinearOrderedField R]
    (ext : External R) (useAMGx directSolve : Bool) (mem : Nat → R)
    (comm_ : MPI_Comm) (mesh_lor : ParMesh) (alpha_coeff beta_coeff : Option Coefficient)
    (alpha_vcoeff beta_vcoeff : Option VectorCoefficient)
    (ess_bdr : List Int) (curlcurl_oper conn : Operator R) (n : Int) (very_verbose : Bool)
    (s : MatrixFreeAuxiliarySpace R)
    (hs : GSpace ext useAMGx directSolve mem comm_ mesh_lor beta_coeff ess_bdr curlcurl_oper
        conn n very_verbose = Except.ok s ∨
      PiSpace ext useAMGx directSolve mem comm_ mesh_lor alpha_coeff beta_coeff alpha_vcoeff
        beta_vcoeff ess_bdr curlcurl_oper conn n = Except.ok s) :
    (n ≤ 0 → s.AppliesPreconditioner) ∧
    (1 ≤ n → n ≤ 99 → s.AppliesCG mem curlcurl_oper conn 0 n) ∧
    (99 < n → s.AppliesCG mem curlcurl_oper conn 1e-14 100) ∧
    (0 < n → ∃ cg, s.cg_ = some cg ∧ cg.max_iter = min n 100) := by
  rcases hs with hs | hs
  · exact inner_solve_cases s mem comm_ curlcurl_oper conn n very_verbose
      (GSpace_ok ext useAMGx directSolve mem comm_ mesh_lor beta_coeff ess_bdr curlcurl_oper
        conn n very_verbose s hs).2.2
  · exact inner_solve_cases s mem comm_ curlcurl_oper conn n false
      (PiSpace_ok ext useAMGx directSolve mem comm_ mesh_lor alpha_coeff beta_coeff alpha_vcoeff
        beta_vcoeff ess_bdr curlcurl_oper conn n s hs).2

end MatrixFreeAuxiliarySpace

end mfem

namespace mfem

namespace MatrixFreeAuxiliarySpace

/-- Witness of C6: over `demoExternal`, the G-space solver built with
`cg_iterations = 5` applies the conjugate-gradient solve with tolerance `0` and
at most `5` iterations, the one built with `150` applies it with tolerance
`1e-14` and at most `100` iterations, and the Pi-space solver built with `0`
applies its preconditioner. -/
theorem inner_solve_by_cg_iterations_witness :
    (∃ s, GSpace demoExternal false false (fun _ => 0) ⟨0⟩ ⟨3⟩ (some ⟨0⟩) [1] demoCurlCurl
        demoGrad 5 false = Except.ok s ∧
      s.AppliesCG (fun _ => 0) demoCurlCurl demoGrad 0 5) ∧
    (∃ s, GSpace demoExternal false false (fun _ => 0) ⟨0⟩ ⟨3⟩ (some ⟨0⟩) [1] demoCurlCurl
        demoGrad 150 false = Except.ok s ∧
      s.AppliesCG (fun _ => 0) demoCurlCurl demoGrad 1e-14 100) ∧
    (∃ s, PiSpace demoExternal false false (fun _ => 0) ⟨0⟩ ⟨3⟩ (some ⟨0⟩) (some ⟨1⟩) none none
        [1] demoCurlCurl demoGrad 0 = Except.ok s ∧
      s.AppliesPreconditioner) :=
  ⟨⟨_, rfl,
    (inner_solve_by_cg_iterations demoExternal false false (fun _ => 0) ⟨0⟩ ⟨3⟩ none (some ⟨0⟩)
      none none [1] demoCurlCurl demoGrad 5 false _ (Or.inl rfl)).2.1 (by decide) (by decide)⟩,
   ⟨_, rfl,
    (inner_solve_by_cg_iterations demoExternal false false (fun _ => 0) ⟨0⟩ ⟨3⟩ none (some ⟨0⟩)
      none none [1] demoCurlCurl demoGrad 150 false _ (Or.inl rfl)).2.2.1 (by decide)⟩,
   ⟨_, rfl,
    (inner_solve_by_cg_iterations demoExternal false false (fun _ => 0) ⟨0⟩ ⟨3⟩ (some ⟨0⟩)
      (some ⟨1⟩) none none [1] demoCurlCurl demoGrad 0 false _ (Or.inr rfl)).1 (by decide)⟩⟩

end MatrixFreeAuxiliarySpace

end mfem

namespace mfem

namespace MatrixFreeAuxiliarySpace

/-! ## Declared size and coefficient checks of the constructors -/

/-- C7, at a failing input: the G-space solver built for the system operator
`demoCurlCurl` (height `3`) and the inter-space operator `demoGrad` (height `3`,
width `2`) declares the size `3`, the height of the system operator, and not
the width `2` of its inter-space operator, while the Pi-space solver built for
the same operators declares the width `2`. -/
theorem GSpace_declares_curlcurl_height :
    (∃ s, GSpace demoExternal false false (fun _ => 0) ⟨0⟩ ⟨3⟩ (some ⟨0⟩) [1] demoCurlCurl
        demoGrad 1 false = Except.ok s ∧
      s.height = 3 ∧ s.height ≠ demoGrad.width) ∧
    (∃ s, PiSpace demoExternal false false (fun _ => 0) ⟨0⟩ ⟨3⟩ (some ⟨0⟩) (some ⟨1⟩) none none
        [1] demoCurlCurl demoGrad 1 = Except.ok s ∧
      s.height = demoGrad.width) :=
  ⟨⟨_, rfl, rfl, by decide⟩, ⟨_, rfl, rfl⟩⟩

/-- C9, at the failing inputs: when the scalar diffusion coefficient is
supplied and neither mass coefficient is, the Pi-space constructor reports no
error: it takes the indirection of the null `beta_vcoeff`.  (When the scalar
diffusion coefficient is missing it does report an error.) -/
theorem PiSpace_missing_mass_coefficient {R : Type} [LinearOrderedField R]
    (ext : External R) (useAMGx directSolve : Bool) (mem : Nat → R)
    (comm_ : MPI_Comm) (mesh_lor : ParMesh) (alpha : Coefficient)
    (beta_coeff : Option Coefficient) (alpha_vcoeff beta_vcoeff : Option VectorCoefficient)
    (ess_bdr : List Int) (curlcurl_oper pi : Operator R) (n : Int) :
    PiSpace ext useAMGx directSolve mem comm_ mesh_lor (some alpha) none alpha_vcoeff none
        ess_bdr curlcurl_oper pi n = Except.error Failure.null_dereference ∧
    PiSpace ext useAMGx directSolve mem comm_ mesh_lor none beta_coeff alpha_vcoeff beta_vcoeff
        ess_bdr curlcurl_oper pi n =
      Except.error (Failure.mfem_error "VectorCoefficient support not implemented?") :=
  ⟨rfl, rfl⟩

/-- C10, counterexample: with only the vector-valued diffusion coefficient
supplied (`alpha_coeff` null, `alpha_vcoeff` not null) and a scalar mass
coefficient, the Pi-space constructor stops with a configuration error. -/
theorem PiSpace_vector_diffusion_rejected :
    PiSpace demoExternal false false (fun _ => 0) ⟨0⟩ ⟨3⟩ none (some ⟨1⟩) (some ⟨2⟩) none
        [1] demoCurlCurl demoGrad 0 =
      Except.error (Failure.mfem_error "VectorCoefficient support not implemented?") :=
  rfl

/-- C10, amended: the Pi-space variant accepts the mass coefficient in either
kind and the diffusion coefficient in the scalar kind only.  Whenever
`alpha_coeff` is null construction stops with the error
"VectorCoefficient support not implemented?", whatever `alpha_vcoeff` is.  With
a scalar diffusion coefficient `alpha` and only the vector-valued mass
coefficient `beta_v` supplied, construction raises no coefficient error: it
returns a solver whose matrix is assembled from the form holding
`VectorDiffusionIntegrator(alpha)` and `VectorMassIntegrator(beta_v)`, unless
an inner iteration is requested and an assertion of `SetupCG` on the operator
dimensions fails. -/
theorem PiSpace_coefficient_kinds {R : Type} [LinearOrderedField R]
    (ext : External R) (useAMGx directSolve : Bool) (mem : Nat → R)
    (comm_ : MPI_Comm) (mesh_lor : ParMesh) (alpha : Coefficient) (beta_v : VectorCoefficient)
    (beta_coeff : Option Coefficient) (alpha_vcoeff beta_vcoeff : Option VectorCoefficient)
    (ess_bdr : List Int) (curlcurl_oper pi : Operator R) (n : Int) :
    PiSpace ext useAMGx directSolve mem comm_ mesh_lor none beta_coeff alpha_vcoeff beta_vcoeff
        ess_bdr curlcurl_oper pi n =
      Except.error (Failure.mfem_error "VectorCoefficient support not implemented?") ∧
    (match PiSpace ext useAMGx directSolve mem comm_ mesh_lor (some alpha) none alpha_vcoeff
        (some beta_v) ess_bdr curlcurl_oper pi n with
      | Except.ok s =>
        ∃ a_space : ParBilinearForm, s.aspacematrix_ = ext.ParallelAssemble a_space ∧
          a_space.domain_integs =
            [BilinearFormIntegrator.VectorDiffusionIntegrator alpha,
             BilinearFormIntegrator.VectorMassIntegratorVQ beta_v]
      | Except.error e => 0 < n ∧ e = Failure.mfem_error "Operators don't match!") := by
  refine ⟨rfl, ?_⟩
  have hint : ∀ a : ParBilinearForm,
      a.domain_integs = [BilinearFormIntegrator.VectorDiffusionIntegrator alpha,
        BilinearFormIntegrator.VectorMassIntegratorVQ beta_v] →
      (if ess_bdr.length ≠ 0 then
        a.UsePrecomputedSparsity.Assemble.EliminateEssentialBC ess_bdr DiagonalPolicy.DIAG_KEEP
       else a.UsePrecomputedSparsity.Assemble).Finalize.domain_integs =
        [BilinearFormIntegrator.VectorDiffusionIntegrator alpha,
         BilinearFormIntegrator.VectorMassIntegratorVQ beta_v] := by
    intro a ha
    split <;> exact ha
  simp only [PiSpace, deref, Except_pure, Except_ok_bind, pure_bind]
  by_cases hn : n > 0
  · simp only [hn, if_true, SetupCG]
    cases h1 : pi.height == curlcurl_oper.width
    · exact ⟨trivial, rfl⟩
    · simp only [MFEM_ASSERT_true, Except_ok_bind]
      split
      · rename_i s hs
        obtain ⟨u, _, hs⟩ := Except_bind_eq_ok hs
        injection hs with hs
        subst hs
        exact ⟨_, rfl, hint _ rfl⟩
      · rename_i e he
        refine ⟨trivial, ?_⟩
        revert he
        cases h2 : (RAPOperator mem pi curlcurl_oper pi).height ==
          (SetupBoomerAMG ext useAMGx directSolve
            (ext.ParallelAssemble
              (if ess_bdr.length ≠ 0 then
                ((((ParBilinearForm.new
                  { mesh := mesh_lor, order := 1, vdim := mesh_lor.Dimension }).SetDiagonalPolicy
                    DiagonalPolicy.DIAG_KEEP).AddDomainIntegrator
                  (BilinearFormIntegrator.VectorDiffusionIntegrator alpha)).AddDomainIntegrator
                  (BilinearFormIntegrator.VectorMassIntegratorVQ
                    beta_v)).UsePrecomputedSparsity.Assemble.EliminateEssentialBC
                  ess_bdr DiagonalPolicy.DIAG_KEEP
              else
                ((((ParBilinearForm.new
                  { mesh := mesh_lor, order := 1, vdim := mesh_lor.Dimension }).SetDiagonalPolicy
                    DiagonalPolicy.DIAG_KEEP).AddDomainIntegrator
                  (BilinearFormIntegrator.VectorDiffusionIntegrator alpha)).AddDomainIntegrator
                  (BilinearFormIntegrator.VectorMassIntegratorVQ
                    beta_v)).UsePrecomputedSparsity.Assemble).Finalize)
            (if ess_bdr.length ≠ 0 then
              ext.GetEssentialTrueDofs
                { mesh := mesh_lor, order := 1, vdim := mesh_lor.Dimension } ess_bdr
             else [])
            mesh_lor.Dimension).height
        · intro he
          injection he with he
          exact he.symm
        · intro he
          simp [MFEM_ASSERT_true, Except_ok_bind, bind, Except.bind, pure, Except.pure] at he
  · simp only [hn, if_false]
    exact ⟨_, rfl, hint _ rfl⟩

end MatrixFreeAuxiliarySpace

end mfem

namespace mfem

namespace MatrixFreeAuxiliarySpace

/-! ## Operator dimensions at construction -/

/-- C11, counterexample: without inner iteration (`cg_iterations = 0`) the
G-space constructor returns a solver for the inter-space operator `demoGrad` of
three rows and a system operator of four columns, and so does the Pi-space
constructor. -/
theorem construction_accepts_mismatch_without_inner_iteration :
    demoGrad.height ≠ demoCurlCurlWide.width ∧
    (∃ s, GSpace demoExternal false false (fun _ => 0) ⟨0⟩ ⟨3⟩ (some ⟨0⟩) [1]
        demoCurlCurlWide demoGrad 0 false = Except.ok s) ∧
    (∃ s, PiSpace demoExternal false false (fun _ => 0) ⟨0⟩ ⟨3⟩ (some ⟨0⟩) (some ⟨1⟩) none none
        [1] demoCurlCurlWide demoGrad 0 = Except.ok s) :=
  ⟨by decide, ⟨_, rfl⟩, ⟨_, rfl⟩⟩

/-- C11, amended: mismatched operator dimensions are rejected at construction
when an inner iteration is requested.  For every `cg_iterations > 0`,
constructing an auxiliary-space solver from an inter-space operator `conn` and
a system operator `curlcurl` with `height(conn) != width(curlcurl)` ends with
an error and returns no solver (with the coefficients supplied, the error is the
failed assertion "Operators don't match!" of `SetupCG`); for
`cg_iterations <= 0` the dimensions are not compared and, the coefficients
being supplied, a solver is returned. -/
theorem construction_rejects_mismatch_with_inner_iteration {R : Type} [LinearOrderedField R]
    (ext : External R) (useAMGx directSolve : Bool) (mem : Nat → R)
    (comm_ : MPI_Comm) (mesh_lor : ParMesh) (alpha beta : Coefficient)
    (alpha_coeff beta_coeff : Option Coefficient)
    (alpha_vcoeff beta_vcoeff : Option VectorCoefficient)
    (ess_bdr : List Int) (curlcurl_oper conn : Operator R) (n : Int) (very_verbose : Bool)
    (hmis : conn.height ≠ curlcurl_oper.width) :
    (0 < n →
      (∀ s, GSpace ext useAMGx directSolve mem comm_ mesh_lor beta_coeff ess_bdr curlcurl_oper
          conn n very_verbose ≠ Except.ok s) ∧
      (∀ s, PiSpace ext useAMGx directSolve mem comm_ mesh_lor alpha_coeff beta_coeff
          alpha_vcoeff beta_vcoeff ess_bdr curlcurl_oper conn n ≠ Except.ok s) ∧
      GSpace ext useAMGx directSolve mem comm_ mesh_lor (some beta) ess_bdr curlcurl_oper
          conn n very_verbose = Except.error (Failure.mfem_error "Operators don't match!") ∧
      PiSpace ext useAMGx directSolve mem comm_ mesh_lor (some alpha) (some beta)
          alpha_vcoeff beta_vcoeff ess_bdr curlcurl_oper conn n
        = Except.error (Failure.mfem_error "Operators don't match!")) ∧
    (n ≤ 0 →
      (∃ s, GSpace ext useAMGx directSolve mem comm_ mesh_lor (some beta) ess_bdr curlcurl_oper
          conn n very_verbose = Except.ok s) ∧
      (∃ s, PiSpace ext useAMGx directSolve mem comm_ mesh_lor (some alpha) (some beta)
          alpha_vcoeff beta_vcoeff ess_bdr curlcurl_oper conn n = Except.ok s)) := by
  have hb : (conn.height == curlcurl_oper.width) = false := by
    simpa using hmis
  have hcg : ∀ (pc : Solver R) (vv : Bool),
      SetupCG mem comm_ pc curlcurl_oper conn n vv =
        Except.error (Failure.mfem_error "Operators don't match!") := by
    intro pc vv
    simp only [SetupCG, hb]
    rfl
  constructor
  · intro hn
    refine ⟨?_, ?_, ?_, ?_⟩
    · intro s hs
      have h := (GSpace_ok ext useAMGx directSolve mem comm_ mesh_lor beta_coeff ess_bdr
        curlcurl_oper conn n very_verbose s hs).2.2
      rw [if_pos hn] at h
      obtain ⟨inner, hi, _⟩ := h
      rw [hcg] at hi
      exact Except.noConfusion hi
    · intro s hs
      have h := (PiSpace_ok ext useAMGx directSolve mem comm_ mesh_lor alpha_coeff beta_coeff
        alpha_vcoeff beta_vcoeff ess_bdr curlcurl_oper conn n s hs).2
      rw [if_pos hn] at h
      obtain ⟨inner, hi, _⟩ := h
      rw [hcg] at hi
      exact Except.noConfusion hi
    · simp only [GSpace, deref, Except_pure, Except_ok_bind, pure_bind, if_pos hn, hcg]
      rfl
    · simp only [PiSpace, deref, Except_pure, Except_ok_bind, pure_bind, if_pos hn, hcg]
      rfl
  · intro hn
    have hn0 : ¬ n > 0 := by omega
    refine ⟨?_, ?_⟩
    · simp only [GSpace, deref, Except_pure, Except_ok_bind, pure_bind, if_neg hn0]
      exact ⟨_, rfl⟩
    · simp only [PiSpace, deref, Except_pure, Except_ok_bind, pure_bind, if_neg hn0]
      exact ⟨_, rfl⟩

/-- Witness of C11: with one inner iteration the G-space constructor rejects
`demoGrad` (three rows) against a system operator of four columns. -/
theorem construction_rejects_mismatch_with_inner_iteration_witness :
    demoGrad.height ≠ demoCurlCurlWide.width ∧
    GSpace demoExternal false false (fun _ => 0) ⟨0⟩ ⟨3⟩ (some ⟨0⟩) [1] demoCurlCurlWide
        demoGrad 1 false = Except.error (Failure.mfem_error "Operators don't match!") :=
  ⟨by decide,
    ((construction_rejects_mismatch_with_inner_iteration demoExternal false false (fun _ => 0)
      ⟨0⟩ ⟨3⟩ ⟨1⟩ ⟨0⟩ none none none none [1] demoCurlCurlWide demoGrad 1 false
      (by decide)).1 (by decide)).2.2.1⟩

end MatrixFreeAuxiliarySpace

end mfem

namespace mfem

namespace MatrixFreeAuxiliarySpace

/-! ## The inner-iteration counter -/

section Counter

variable {R : Type} [LinearOrderedField R]

/-- A conjugate-gradient solve changes the record of the last solve only. -/
theorem CGSolver_Mult_config (cg : CGSolver R) (mem : Nat → R) (b x ysol : Vector R)
    (cg1 : CGSolver R) (h : cg.Mult mem b x = Except.ok (ysol, cg1)) :
    ∃ (fi : Int) (cv : Bool), cg1 = { cg with final_iter := fi, converged := cv } := by
  cases hoper : cg.oper with
  | none =>
    simp [CGSolver.Mult, hoper, deref, bind, Except.bind, throw, throwThe,
      MonadExceptOf.throw] at h
  | some A =>
    simp only [CGSolver.Mult, hoper, deref, pure_bind, Except_pure, Except_ok_bind] at h
    split_ifs at h <;>
    · injection h with h
      injection h with _ h
      exact ⟨_, _, h.symm⟩

/-- What the constructors leave: the counter at zero and well-formed
pointers. -/
theorem constructed_WellFormed (s : MatrixFreeAuxiliarySpace R) (mem : Nat → R)
    (comm_ : MPI_Comm) (curlcurl_oper conn : Operator R) (n : Int) (very_verbose : Bool)
    (h : if n > 0 then
      ∃ inner, SetupCG mem comm_ s.aspacepc_ curlcurl_oper conn n very_verbose
          = Except.ok inner ∧
        s.matfree_ = inner.matfree_ ∧ s.cg_ = inner.cg_ ∧
        s.aspacewrapper_ = inner.aspacewrapper_
     else s.matfree_ = none ∧ s.cg_ = none ∧ s.aspacewrapper_ = WrapperTarget.aspacepc) :
    s.WellFormed := by
  split at h
  · obtain ⟨inner, hcg, _, h2, h3⟩ := h
    obtain ⟨i1, _, cg, i3, i4, _⟩ := SetupCG_ok mem comm_ s.aspacepc_ curlcurl_oper conn n
      very_verbose inner hcg
    exact Or.inr ⟨h3.trans i1, cg, _, h2.trans i3, i4⟩
  · exact Or.inl ⟨h.2.2, h.2.1⟩

/-- The G-space constructor leaves the counter at zero. -/
theorem GSpace_counter_zero (ext : External R) (useAMGx directSolve : Bool) (mem : Nat → R)
    (comm_ : MPI_Comm) (mesh_lor : ParMesh) (beta_coeff : Option Coefficient)
    (ess_bdr : List Int) (curlcurl_oper g : Operator R) (n : Int) (very_verbose : Bool)
    (s : MatrixFreeAuxiliarySpace R)
    (h : GSpace ext useAMGx directSolve mem comm_ mesh_lor beta_coeff ess_bdr curlcurl_oper g n
      very_verbose = Except.ok s) : s.inner_aux_iterations_ = 0 := by
  unfold GSpace at h
  cases beta_coeff with
  | none => simp [deref, bind, Except.bind, throw, throwThe, MonadExceptOf.throw] at h
  | some beta =>
    simp only [deref, Except_pure, Except_ok_bind, pure_bind] at h
    by_cases hn : n > 0
    · simp only [hn, if_true] at h
      obtain ⟨inner, _, h⟩ := Except_bind_eq_ok h
      injection h with h
      subst h
      rfl
    · simp only [hn, if_false, Except_pure, Except_ok_bind, pure_bind] at h
      injection h with h
      subst h
      rfl

/-- The Pi-space constructor leaves the counter at zero. -/
theorem PiSpace_counter_zero (ext : External R) (useAMGx directSolve : Bool) (mem : Nat → R)
    (comm_ : MPI_Comm) (mesh_lor : ParMesh) (alpha_coeff beta_coeff : Option Coefficient)
    (alpha_vcoeff beta_vcoeff : Option VectorCoefficient)
    (ess_bdr : List Int) (curlcurl_oper pi : Operator R) (n : Int)
    (s : MatrixFreeAuxiliarySpace R)
    (h : PiSpace ext useAMGx directSolve mem comm_ mesh_lor alpha_coeff beta_coeff alpha_vcoeff
      beta_vcoeff ess_bdr curlcurl_oper pi n = Except.ok s) : s.inner_aux_iterations_ = 0 := by
  unfold PiSpace at h
  cases alpha_coeff with
  | none => simp [bind, Except.bind, throw, throwThe, MonadExceptOf.throw] at h
  | some alpha =>
    cases beta_coeff with
    | some beta =>
      simp only [Except_pure, Except_ok_bind, pure_bind] at h
      by_cases hn : n > 0
      · simp only [hn, if_true] at h
        obtain ⟨inner, _, h⟩ := Except_bind_eq_ok h
        injection h with h
        subst h
        rfl
      · simp only [hn, if_false, Except_pure, Except_ok_bind, pure_bind] at h
        injection h with h
        subst h
        rfl
    | none =>
      cases beta_vcoeff with
      | none =>
        simp [deref, bind, Except.bind, throw, throwThe, MonadExceptOf.throw, pure,
          Except.pure] at h
      | some q =>
        simp only [deref, Except_pure, Except_ok_bind, pure_bind] at h
        by_cases hn : n > 0
        · simp only [hn, if_true] at h
          obtain ⟨inner, _, h⟩ := Except_bind_eq_ok h
          injection h with h
          subst h
          rfl
        · simp only [hn, if_false, Except_pure, Except_ok_bind, pure_bind] at h
          injection h with h
          subst h
          rfl

/-- Without conjugate-gradient solver, `Mult` applies the preconditioner and
leaves the solver as it is. -/
theorem Mult_without_cg (s : MatrixFreeAuxiliarySpace R) (mem : Nat → R) (x y : Vector R)
    (hw : s.aspacewrapper_ = WrapperTarget.aspacepc) (hcg : s.cg_ = none) :
    s.Mult mem x y = Except.ok (s.aspacepc_.Mult x (y.assign 0), s) := by
  simp only [Mult, hw, hcg, Except_pure, Except_ok_bind, pure_bind]

/-- With a conjugate-gradient solver, `Mult` runs it from the zero vector and
adds its iteration count to the counter on rank `0`. -/
theorem Mult_with_cg (s : MatrixFreeAuxiliarySpace R) (mem : Nat → R) (x y : Vector R)
    (cg : CGSolver R) (A : Operator R)
    (hw : s.aspacewrapper_ = WrapperTarget.cg) (hcg : s.cg_ = some cg)
    (hoper : cg.oper = some A) :
    ∃ (ysol : Vector R) (cg1 : CGSolver R),
      cg.Mult mem x (y.assign 0) = Except.ok (ysol, cg1) ∧
      (∃ (fi : Int) (cv : Bool), cg1 = { cg with final_iter := fi, converged := cv }) ∧
      s.Mult mem x y = Except.ok (ysol,
        { s with
          cg_ := some cg1
          inner_aux_iterations_ :=
            if s.comm.rank = 0 then s.inner_aux_iterations_ + cg1.GetNumIterations
            else s.inner_aux_iterations_ }) := by
  obtain ⟨res, hres⟩ := CGSolver_Mult_ok cg A hoper mem x (y.assign 0)
  obtain ⟨ysol, cg1⟩ := res
  refine ⟨ysol, cg1, hres, CGSolver_Mult_config cg mem x _ ysol cg1 hres, ?_⟩
  simp only [Mult, hw, hcg, deref, hres, Except_pure, Except_ok_bind, pure_bind]
  split <;> rfl

end Counter

/-- C12: `MatrixFreeAuxiliarySpace::Mult` changes only the inner-iteration
counter.  A solver `s` returned by either constructor has the counter at `0`
and well-formed pointers.  For every well-formed solver `t` (such are the
constructed ones, and `Mult` keeps them so) and every input: if no inner
conjugate-gradient solver is configured, `Mult` returns the output of the
preconditioner and the solver unchanged; if one is configured, `Mult` returns
the output of its solve, and the solver differs in the counter only, which is
its previous value plus the iteration count reported by that solve when the
rank is `0` and unchanged otherwise, the conjugate-gradient solver itself
keeping its configuration and recording its last solve.  The input `x` is a
const reference: a value of the embedding.  (The counter is an `int`; the sum
is the mathematical one, within the range of `int`.) -/
theorem Mult_changes_only_the_counter {R : Type} [LinearOrderedField R]
    (ext : External R) (useAMGx directSolve : Bool) (mem : Nat → R)
    (comm_ : MPI_Comm) (mesh_lor : ParMesh) (alpha_coeff beta_coeff : Option Coefficient)
    (alpha_vcoeff beta_vcoeff : Option VectorCoefficient)
    (ess_bdr : List Int) (curlcurl_oper conn : Operator R) (n : Int) (very_verbose : Bool)
    (s : MatrixFreeAuxiliarySpace R)
    (hs : GSpace ext useAMGx directSolve mem comm_ mesh_lor beta_coeff ess_bdr curlcurl_oper
        conn n very_verbose = Except.ok s ∨
      PiSpace ext useAMGx directSolve mem comm_ mesh_lor alpha_coeff beta_coeff alpha_vcoeff
        beta_vcoeff ess_bdr curlcurl_oper conn n = Except.ok s) :
    s.inner_aux_iterations_ = 0 ∧ s.WellFormed ∧
    ∀ (t : MatrixFreeAuxiliarySpace R) (mem1 : Nat → R) (x y : Vector R), t.WellFormed →
      (t.cg_ = none →
        t.Mult mem1 x y = Except.ok (t.aspacepc_.Mult x (y.assign 0), t)) ∧
      (∀ cg, t.cg_ = some cg →
        ∃ (ysol : Vector R) (cg1 : CGSolver R),
          cg.Mult mem1 x (y.assign 0) = Except.ok (ysol, cg1) ∧
          (∃ (fi : Int) (cv : Bool), cg1 = { cg with final_iter := fi, converged := cv }) ∧
          t.Mult mem1 x y = Except.ok (ysol,
            { t with
              cg_ := some cg1
              inner_aux_iterations_ :=
                if t.comm.rank = 0 then t.inner_aux_iterations_ + cg1.GetNumIterations
                else t.inner_aux_iterations_ })) ∧
      Returns (t.Mult mem1 x y) (fun res => res.2.WellFormed) := by
  refine ⟨?_, ?_, ?_⟩
  · rcases hs with hs | hs
    · exact GSpace_counter_zero ext useAMGx directSolve mem comm_ mesh_lor beta_coeff ess_bdr
        curlcurl_oper conn n very_verbose s hs
    · exact PiSpace_counter_zero ext useAMGx directSolve mem comm_ mesh_lor alpha_coeff
        beta_coeff alpha_vcoeff beta_vcoeff ess_bdr curlcurl_oper conn n s hs
  · rcases hs with hs | hs
    · exact constructed_WellFormed s mem comm_ curlcurl_oper conn n very_verbose
        (GSpace_ok ext useAMGx directSolve mem comm_ mesh_lor beta_coeff ess_bdr curlcurl_oper
          conn n very_verbose s hs).2.2
    · exact constructed_WellFormed s mem comm_ curlcurl_oper conn n false
        (PiSpace_ok ext useAMGx directSolve mem comm_ mesh_lor alpha_coeff beta_coeff
          alpha_vcoeff beta_vcoeff ess_bdr curlcurl_oper conn n s hs).2
  · intro t mem1 x y ht
    rcases ht with ⟨hw, hcg⟩ | ⟨hw, cg, A, hcg, hoper⟩
    · refine ⟨fun _ => Mult_without_cg t mem1 x y hw hcg, ?_, ?_⟩
      · intro cg0 h0
        rw [hcg] at h0
        exact Option.noConfusion h0
      · rw [Mult_without_cg t mem1 x y hw hcg, Returns_ok]
        exact Or.inl ⟨hw, hcg⟩
    · obtain ⟨ysol, cg1, h1, h2, h3⟩ := Mult_with_cg t mem1 x y cg A hw hcg hoper
      refine ⟨?_, ?_, ?_⟩
      · intro h0
        rw [hcg] at h0
        exact Option.noConfusion h0
      · intro cg0 h0
        rw [hcg] at h0
        injection h0 with h0
        subst h0
        exact ⟨ysol, cg1, h1, h2, h3⟩
      · rw [h3, Returns_ok]
        obtain ⟨fi, cv, h2⟩ := h2
        refine Or.inr ⟨hw, cg1, A, rfl, ?_⟩
        rw [h2]
        exact hoper

/-- Witness of C12: the G-space solver built over `demoExternal` without inner
iteration starts with the counter at `0` and `Mult` returns it unchanged; the
one built with one inner iteration holds a conjugate-gradient solver, and after
`Mult` the counter is `0` plus the iteration count of the solve (the rank of the
demo communicator being `0`). -/
theorem Mult_changes_only_the_counter_witness :
    (∃ s, GSpace demoExternal false false (fun _ => 0) ⟨0⟩ ⟨3⟩ (some ⟨0⟩) [1] demoCurlCurl
        demoGrad 0 false = Except.ok s ∧
      s.inner_aux_iterations_ = 0 ∧
      s.Mult (fun _ => 0) [3, 4] [9, 9] = Except.ok ([3, 0], s)) ∧
    (∃ s cg, GSpace demoExternal false false (fun _ => 0) ⟨0⟩ ⟨3⟩ (some ⟨0⟩) [1] demoCurlCurl
        demoGrad 1 false = Except.ok s ∧ s.cg_ = some cg ∧
      ∃ (ysol : Vector ℚ) (cg1 : CGSolver ℚ),
        cg.Mult (fun _ => 0) [3, 4] (Vector.assign [9, 9] 0) = Except.ok (ysol, cg1) ∧
        s.Mult (fun _ => 0) [3, 4] [9, 9] = Except.ok (ysol,
          { s with
            cg_ := some cg1
            inner_aux_iterations_ := 0 + cg1.GetNumIterations })) := by
  refine ⟨⟨_, rfl, ?_, ?_⟩, ⟨_, _, rfl, rfl, ?_⟩⟩
  · exact (Mult_changes_only_the_counter demoExternal false false (fun _ => 0) ⟨0⟩ ⟨3⟩ none
      (some ⟨0⟩) none none [1] demoCurlCurl demoGrad 0 false _ (Or.inl rfl)).1
  · have h := Mult_changes_only_the_counter demoExternal false false (fun _ => 0) ⟨0⟩ ⟨3⟩ none
      (some ⟨0⟩) none none [1] demoCurlCurl demoGrad 0 false _ (Or.inl rfl)
    exact ((h.2.2 _ (fun _ => 0) [3, 4] [9, 9] h.2.1).1 rfl).trans rfl
  · have h := Mult_changes_only_the_counter demoExternal false false (fun _ => 0) ⟨0⟩ ⟨3⟩ none
      (some ⟨0⟩) none none [1] demoCurlCurl demoGrad 1 false _ (Or.inl rfl)
    obtain ⟨ysol, cg1, h1, _, h3⟩ := (h.2.2 _ (fun _ => 0) [3, 4] [9, 9] h.2.1).2.1 _ rfl
    exact ⟨ysol, cg1, h1, h3⟩


end MatrixFreeAuxiliarySpace

end mfem

namespace mfem

namespace MatrixFreeAMS

/-! ## Teardown of `MatrixFreeAMS` -/

/-- C13, counterexample: the composite preconditioner built at the addresses
`demoAddresses` references the smoother, the G operator and the Pi operator,
and the destructor does not release it before them: it releases the smoother
first, then the two operator builders, and the composite only sixth. -/
theorem destructor_releases_smoother_before_composite :
    (18, 10) ∈ (MatrixFreeAMS.new demoAddresses).references ∧
    (MatrixFreeAMS.new demoAddresses).self.general_ams_ = some 18 ∧
    (MatrixFreeAMS.new demoAddresses).self.smoother_ = some 10 ∧
    destructor (MatrixFreeAMS.new demoAddresses).self = [10, 14, 15, 16, 17, 18, 12, 13] ∧
    ¬ ReleasedBefore (destructor (MatrixFreeAMS.new demoAddresses).self) 18 10 ∧
    ¬ ReleasedBefore (destructor (MatrixFreeAMS.new demoAddresses).self) 16 14 := by
  decide

/-- C13, as amended: for nine distinct addresses, the destructor releases the
eight objects the constructor left owned, each exactly once and none of them
the collection the constructor released itself, in the order smoother, G
builder, Pi builder, G solver, Pi solver, composite, H1 space, vector H1 space;
so the two solvers and the composite are released before both H1 spaces and
after the smoother and the two operator builders, and every builder before the
space it references. -/
theorem destructor_release_order (a : Addresses) (hd : a.Distinct) :
    destructor (MatrixFreeAMS.new a).self =
      [a.smoother, a.pa_grad, a.pa_interp, a.Gspacesolver, a.Pispacesolver, a.general_ams,
        a.h1_fespace, a.h1_fespace_d] ∧
    (destructor (MatrixFreeAMS.new a).self).Nodup ∧
    ((MatrixFreeAMS.new a).released ++ destructor (MatrixFreeAMS.new a).self).Nodup ∧
    (∀ x ∈ [a.Gspacesolver, a.Pispacesolver, a.general_ams],
      (∀ y ∈ [a.h1_fespace, a.h1_fespace_d],
        ReleasedBefore (destructor (MatrixFreeAMS.new a).self) x y) ∧
      (∀ y ∈ [a.smoother, a.pa_grad, a.pa_interp],
        ReleasedBefore (destructor (MatrixFreeAMS.new a).self) y x)) ∧
    (∀ x y, (x, y) ∈ (MatrixFreeAMS.new a).references →
      y ∈ [a.h1_fespace, a.h1_fespace_d] →
      ReleasedBefore (destructor (MatrixFreeAMS.new a).self) x y) := by
  obtain ⟨s, c, h, hd_, g, p, gs, ps, ga⟩ := a
  simp only [Addresses.Distinct, List.nodup_cons, List.mem_cons, List.mem_singleton,
    List.not_mem_nil, or_false, not_or, List.nodup_nil, and_true] at hd
  have hD : destructor (MatrixFreeAMS.new ⟨s, c, h, hd_, g, p, gs, ps, ga⟩).self =
      [s, g, p, gs, ps, ga, h, hd_] := rfl
  have hR : (MatrixFreeAMS.new ⟨s, c, h, hd_, g, p, gs, ps, ga⟩).released = [c] := rfl
  have hrefs : (MatrixFreeAMS.new ⟨s, c, h, hd_, g, p, gs, ps, ga⟩).references =
      [(h, c), (hd_, c), (g, h), (p, hd_), (gs, g), (ps, p), (ga, p), (ga, g), (ga, ps),
        (ga, gs), (ga, s)] := rfl
  rw [hD, hR, hrefs]
  obtain ⟨⟨h1, h2, h3, h4, h5, h6, h7, h8⟩, ⟨c2, c3, c4, c5, c6, c7, c8⟩,
    ⟨e3, e4, e5, e6, e7, e8⟩, ⟨f4, f5, f6, f7, f8⟩, ⟨g5, g6, g7, g8⟩, ⟨i6, i7, i8⟩,
    ⟨j7, j8⟩, k8, -⟩ := hd
  have n1 := Ne.symm h1
  have n2 := Ne.symm h2
  have n3 := Ne.symm h3
  have n4 := Ne.symm h4
  have n5 := Ne.symm h5
  have n6 := Ne.symm h6
  have n7 := Ne.symm h7
  have n8 := Ne.symm h8
  have m2 := Ne.symm c2
  have m3 := Ne.symm c3
  have m4 := Ne.symm c4
  have m5 := Ne.symm c5
  have m6 := Ne.symm c6
  have m7 := Ne.symm c7
  have m8 := Ne.symm c8
  have o3 := Ne.symm e3
  have o4 := Ne.symm e4
  have o5 := Ne.symm e5
  have o6 := Ne.symm e6
  have o7 := Ne.symm e7
  have o8 := Ne.symm e8
  have q4 := Ne.symm f4
  have q5 := Ne.symm f5
  have q6 := Ne.symm f6
  have q7 := Ne.symm f7
  have q8 := Ne.symm f8
  have r5 := Ne.symm g5
  have r6 := Ne.symm g6
  have r7 := Ne.symm g7
  have r8 := Ne.symm g8
  have t6 := Ne.symm i6
  have t7 := Ne.symm i7
  have t8 := Ne.symm i8
  have u7 := Ne.symm j7
  have u8 := Ne.symm j8
  have v8 := Ne.symm k8
  refine ⟨rfl, ?_, ?_, ?_, ?_⟩
  · simp [*]
  · simp [*]
  · simp [ReleasedBefore, List.indexOf_cons_ne, List.indexOf_cons_self, *]
  · simp only [List.mem_cons, List.mem_singleton, List.not_mem_nil, or_false, Prod.mk.injEq]
    rintro x y hxy hy
    rcases hy with rfl | rfl <;>
      rcases hxy with ⟨rfl, h0⟩ | ⟨rfl, h0⟩ | ⟨rfl, h0⟩ | ⟨rfl, h0⟩ | ⟨rfl, h0⟩ | ⟨rfl, h0⟩ |
        ⟨rfl, h0⟩ | ⟨rfl, h0⟩ | ⟨rfl, h0⟩ | ⟨rfl, h0⟩ | ⟨rfl, h0⟩ <;>
      first
        | exact absurd h0 (by assumption)
        | simp [ReleasedBefore, List.indexOf_cons_ne, List.indexOf_cons_self, *]

/-- C13, witness: the release order at the addresses `demoAddresses`. -/
theorem destructor_release_order_witness :
    demoAddresses.Distinct ∧
    destructor (MatrixFreeAMS.new demoAddresses).self = [10, 14, 15, 16, 17, 18, 12, 13] :=
  ⟨by decide, (destructor_release_order demoAddresses (by decide)).1⟩

end MatrixFreeAMS

end mfem

namespace mfem

namespace MatrixFreeAuxiliarySpace

/-! ## Teardown of `MatrixFreeAuxiliarySpace` -/

/-- The releases of the destructor in the two configurations. -/
theorem destructor_cases {R : Type} (s : MatrixFreeAuxiliarySpace R) (a : Addresses) (hd : a.Distinct)
    (n : Int)
    (h : if n > 0 then
      (∃ m, s.matfree_ = some m) ∧ (∃ cg, s.cg_ = some cg) ∧
        s.aspacewrapper_ = WrapperTarget.cg
    else s.matfree_ = none ∧ s.cg_ = none ∧ s.aspacewrapper_ = WrapperTarget.aspacepc) :
    destructor (s.pointers a) =
      (if n > 0 then [a.aspacematrix, a.aspacepc, a.matfree, a.cg]
       else [a.aspacematrix, a.aspacepc]) ∧
    (s.pointers a).owned = destructor (s.pointers a) ∧
    (destructor (s.pointers a)).Nodup := by
  obtain ⟨am, ap, af, ac⟩ := a
  simp only [Addresses.Distinct, List.nodup_cons, List.mem_cons, List.mem_singleton,
    List.not_mem_nil, or_false, not_or, List.nodup_nil, and_true, not_false_eq_true] at hd
  obtain ⟨⟨h1, h2, h3⟩, ⟨h4, h5⟩, h6⟩ := hd
  by_cases hn : n > 0
  · simp only [hn, if_true] at h ⊢
    obtain ⟨⟨m, hm⟩, ⟨cg, hc⟩, hw⟩ := h
    have hD : destructor (s.pointers ⟨am, ap, af, ac⟩) = [am, ap, af, ac] := by
      simp [destructor, pointers, delete, hm, hc, hw, h5]
    have hO : (s.pointers ⟨am, ap, af, ac⟩).owned = [am, ap, af, ac] := by
      simp [Pointers.owned, pointers, hm, hc]
    rw [hD, hO]
    refine ⟨rfl, rfl, ?_⟩
    simp [*]
  · simp only [hn, if_false] at h ⊢
    obtain ⟨hm, hc, hw⟩ := h
    have hD : destructor (s.pointers ⟨am, ap, af, ac⟩) = [am, ap] := by
      simp [destructor, pointers, delete, hm, hc, hw]
    have hO : (s.pointers ⟨am, ap, af, ac⟩).owned = [am, ap] := by
      simp [Pointers.owned, pointers, hm, hc]
    rw [hD, hO]
    refine ⟨rfl, rfl, ?_⟩
    simp [*]

section Teardown

variable {R : Type} [LinearOrderedField R]

/-- The members `SetupCG` or `SetupVCycle` set in a constructed solver. -/
theorem constructed_inner_solve (s : MatrixFreeAuxiliarySpace R) (mem : Nat → R)
    (comm_ : MPI_Comm) (curlcurl_oper conn : Operator R) (n : Int) (very_verbose : Bool)
    (h : if n > 0 then
      ∃ inner, SetupCG mem comm_ s.aspacepc_ curlcurl_oper conn n very_verbose
          = Except.ok inner ∧
        s.matfree_ = inner.matfree_ ∧ s.cg_ = inner.cg_ ∧
        s.aspacewrapper_ = inner.aspacewrapper_
     else s.matfree_ = none ∧ s.cg_ = none ∧ s.aspacewrapper_ = WrapperTarget.aspacepc) :
    if n > 0 then
      (∃ m, s.matfree_ = some m) ∧ (∃ cg, s.cg_ = some cg) ∧
        s.aspacewrapper_ = WrapperTarget.cg
    else s.matfree_ = none ∧ s.cg_ = none ∧ s.aspacewrapper_ = WrapperTarget.aspacepc := by
  by_cases hn : n > 0
  · simp only [hn, if_true] at h ⊢
    obtain ⟨inner, hcg, h1, h2, h3⟩ := h
    obtain ⟨i1, i2, cg, i3, _⟩ := SetupCG_ok mem comm_ s.aspacepc_ curlcurl_oper conn n
      very_verbose inner hcg
    exact ⟨⟨_, h1.trans i2⟩, ⟨cg, h2.trans i3⟩, h3.trans i1⟩
  · simp only [hn, if_false] at h ⊢
    exact h

end Teardown

/-- C16: the destructor of a `MatrixFreeAuxiliarySpace` returned by either
constructor, its objects lying at four distinct addresses, releases every
object the solver owns exactly once, in both configurations: with an inner
conjugate-gradient iteration (`aspacewrapper_` is the copy of `cg_`) the
releases are the matrix, the preconditioner, the triple product and the
conjugate-gradient solver, the last one through `aspacewrapper_` and not again
through `cg_`; without one (`aspacewrapper_` is the copy of `aspacepc_`) they
are the matrix and the preconditioner, the preconditioner not being released
again through `aspacewrapper_`, and `matfree_` and `cg_` being null. -/
theorem destructor_releases_each_owned_object_once {R : Type} [LinearOrderedField R]
    (ext : External R) (useAMGx directSolve : Bool) (mem : Nat → R)
    (comm_ : MPI_Comm) (mesh_lor : ParMesh) (alpha_coeff beta_coeff : Option Coefficient)
    (alpha_vcoeff beta_vcoeff : Option VectorCoefficient)
    (ess_bdr : List Int) (curlcurl_oper conn : Operator R) (n : Int) (very_verbose : Bool)
    (s : MatrixFreeAuxiliarySpace R) (a : Addresses) (hd : a.Distinct)
    (hs : GSpace ext useAMGx directSolve mem comm_ mesh_lor beta_coeff ess_bdr curlcurl_oper
        conn n very_verbose = Except.ok s ∨
      PiSpace ext useAMGx directSolve mem comm_ mesh_lor alpha_coeff beta_coeff alpha_vcoeff
        beta_vcoeff ess_bdr curlcurl_oper conn n = Except.ok s) :
    destructor (s.pointers a) =
      (if n > 0 then [a.aspacematrix, a.aspacepc, a.matfree, a.cg]
       else [a.aspacematrix, a.aspacepc]) ∧
    (s.pointers a).owned = destructor (s.pointers a) ∧
    (∀ q, q ∈ (s.pointers a).owned → (destructor (s.pointers a)).count q = 1) ∧
    (∀ q, q ∈ destructor (s.pointers a) → q ∈ (s.pointers a).owned) ∧
    (s.pointers a).aspacewrapper_ = (if n > 0 then (s.pointers a).cg_ else (s.pointers a).aspacepc_)
    := by
  have hi : if n > 0 then
      (∃ m, s.matfree_ = some m) ∧ (∃ cg, s.cg_ = some cg) ∧
        s.aspacewrapper_ = WrapperTarget.cg
    else s.matfree_ = none ∧ s.cg_ = none ∧ s.aspacewrapper_ = WrapperTarget.aspacepc := by
    rcases hs with hs | hs
    · exact constructed_inner_solve s mem comm_ curlcurl_oper conn n very_verbose
        (GSpace_ok ext useAMGx directSolve mem comm_ mesh_lor beta_coeff ess_bdr curlcurl_oper
          conn n very_verbose s hs).2.2
    · exact constructed_inner_solve s mem comm_ curlcurl_oper conn n false
        (PiSpace_ok ext useAMGx directSolve mem comm_ mesh_lor alpha_coeff beta_coeff
          alpha_vcoeff beta_vcoeff ess_bdr curlcurl_oper conn n s hs).2
  obtain ⟨h1, h2, h3⟩ := destructor_cases s a hd n hi
  refine ⟨h1, h2, ?_, ?_, ?_⟩
  · intro q hq
    rw [h2] at hq
    exact List.count_eq_one_of_mem h3 hq
  · intro q hq
    rw [h2]
    exact hq
  · by_cases hn : n > 0
    · simp only [hn, if_true] at hi ⊢
      simp [pointers, hi.2.2]
    · simp only [hn, if_false] at hi ⊢
      simp [pointers, hi.2.2]

/-- C16, witness: the releases for the G-space solvers of the examples, without
and with an inner iteration. -/
theorem destructor_releases_each_owned_object_once_witness :
    demoSpaceAddresses.Distinct ∧
    (∃ s, GSpace demoExternal false false (fun _ => 0) ⟨0⟩ ⟨3⟩ (some ⟨0⟩) [1] demoCurlCurl
        demoGrad 0 false = Except.ok s ∧
      destructor (s.pointers demoSpaceAddresses) = [20, 21]) ∧
    (∃ s, GSpace demoExternal false false (fun _ => 0) ⟨0⟩ ⟨3⟩ (some ⟨0⟩) [1] demoCurlCurl
        demoGrad 1 false = Except.ok s ∧
      destructor (s.pointers demoSpaceAddresses) = [20, 21, 22, 23]) :=
  ⟨by decide,
   ⟨_, rfl, (destructor_releases_each_owned_object_once demoExternal false false (fun _ => 0)
      ⟨0⟩ ⟨3⟩ none (some ⟨0⟩) none none [1] demoCurlCurl demoGrad 0 false _ demoSpaceAddresses
      (by decide) (Or.inl rfl)).1⟩,
   ⟨_, rfl, (destructor_releases_each_owned_object_once demoExternal false false (fun _ => 0)
      ⟨0⟩ ⟨3⟩ none (some ⟨0⟩) none none [1] demoCurlCurl demoGrad 1 false _ demoSpaceAddresses
      (by decide) (Or.inl rfl)).1⟩⟩

end MatrixFreeAuxiliarySpace

end mfem

namespace mfem

/-! ## Residual propagation through the cycle -/

section Propagation

variable {R : Type} [CommRing R]

/-- Subtracting a sum is subtracting its terms in turn. -/
theorem Vector.minus_plus (x a b : Vector R) :
    Vector.minus x (Vector.plus a b) = Vector.minus (Vector.minus x a) b := by
  induction x generalizing a b with
  | nil => simp [Vector.minus]
  | cons h t ih =>
    cases a with
    | nil => simp [Vector.minus, Vector.plus]
    | cons a0 a =>
      cases b with
      | nil => simp [Vector.minus, Vector.plus]
      | cons b0 b =>
        have := ih a b
        simp only [Vector.minus, Vector.plus, List.zipWith_cons_cons] at this ⊢
        rw [this]
        congr 1
        ring

/-- The value `GeneralAMS::Mult` returns: the fifth iterate. -/
theorem GeneralAMS.Mult_returns_y5 (ams : GeneralAMS R) (m : StageMaps R)
    (cuda : Bool) (mem : Nat → R) (x y : Vector R) (ng npi : Nat)
    (hxA : x.Size = ams.A_.height) (hxy : x.Size = y.Size)
    (hm : ams.Computes m) (hs : m.Shaped x.Size ng npi) :
    ∃ t, (ams.Mult cuda mem x y).run [] = Except.ok (m.y5 x, t) := by
  have hy : y.Size = x.Size := hxy.symm
  have hx : ams.A_.height = x.Size := hxA.symm
  have hxx : x.Size = x.Size := rfl
  have s1 := m.Size_y1 hs x rfl
  have s2 := m.Size_y2 hs x rfl
  have s3 := m.Size_y3 hs x rfl
  have s4 := m.Size_y4 hs x rfl
  have a1 := Vector.Size_scale_of _ (-1) _ (hs.A _ s1)
  have a2 := Vector.Size_scale_of _ (-1) _ (hs.A _ s2)
  have a3 := Vector.Size_scale_of _ (-1) _ (hs.A _ s3)
  have a4 := Vector.Size_scale_of _ (-1) _ (hs.A _ s4)
  have c1 := m.Size_gCorrection hs _ (m.Size_residual hs x _ rfl s1)
  have c2 := m.Size_piCorrection hs _ (m.Size_residual hs x _ rfl s2)
  have c3 := m.Size_gCorrection hs _ (m.Size_residual hs x _ rfl s3)
  have c4 := hs.S _ (m.Size_residual hs x _ rfl s4)
  simp only [GeneralAMS.Mult, hx, hy, beq_self_eq_true, MFEM_ASSERT_true, Bool.false_eq_true,
    if_false, pure_bind, GeneralAMS.FormResidual, GeneralAMS.smoother_Mult,
    GeneralAMS.gspacesolver_Mult, GeneralAMS.pispacesolver_Mult, record, Except_ok_bind,
    Except_ok_map, StateT.run_bind, StateT.run_pure, StateT.run_modify, StateT.run_monadLift,
    StateT.run_lift, StateT.run_map, bind_pure_comp, map_pure, bind_assoc, monadLift_self,
    Except_pure, hm.smoother, hm.A, hm.g, hm.gT, hm.gspacesolver, hm.pi, hm.piT,
    hm.pispacesolver, Vector.residual_eq]
  iterate 8
    rw [Vector.addAssign_ok x.Size]
    rotate_left
    · assumption
    · assumption
    simp only [Except_ok_bind, Except_ok_map, StateT.run_bind, StateT.run_pure,
      StateT.run_modify, StateT.run_monadLift, StateT.run_lift, StateT.run_map, bind_pure_comp,
      map_pure, bind_assoc, pure_bind, monadLift_self, Except_pure, Vector.residual_eq]
  exact ⟨_, rfl⟩

/-- The residual after a correction stage, for an additive system operator. -/
theorem StageMaps.residual_plus (m : StageMaps R) (n : Nat) (hadd : m.AdditiveA n)
    (x yk c : Vector R) (hy : yk.Size = n) (hc : c.Size = n) :
    m.residual x (Vector.plus yk c) = Vector.minus (m.residual x yk) (m.A c) := by
  unfold StageMaps.residual
  rw [hadd yk c hy hc, Vector.minus_plus]

/-- The residual of the fifth iterate, for an additive system operator. -/
theorem StageMaps.residual_y5 (m : StageMaps R) (n ng npi : Nat) (hs : m.Shaped n ng npi)
    (hadd : m.AdditiveA n) (x : Vector R) (hx : x.Size = n) :
    m.residual x (m.y5 x) = m.Rs (m.Rg (m.Rpi (m.Rg (m.Rs x)))) := by
  have s1 := m.Size_y1 hs x hx
  have s2 := m.Size_y2 hs x hx
  have s3 := m.Size_y3 hs x hx
  have s4 := m.Size_y4 hs x hx
  have r1 : m.residual x (m.y1 x) = m.Rs x := rfl
  have r2 : m.residual x (m.y2 x) = m.Rg (m.residual x (m.y1 x)) :=
    m.residual_plus n hadd x _ _ s1 (m.Size_gCorrection hs _ (m.Size_residual hs x _ hx s1))
  have r3 : m.residual x (m.y3 x) = m.Rpi (m.residual x (m.y2 x)) :=
    m.residual_plus n hadd x _ _ s2 (m.Size_piCorrection hs _ (m.Size_residual hs x _ hx s2))
  have r4 : m.residual x (m.y4 x) = m.Rg (m.residual x (m.y3 x)) :=
    m.residual_plus n hadd x _ _ s3 (m.Size_gCorrection hs _ (m.Size_residual hs x _ hx s3))
  have r5 : m.residual x (m.y5 x) = m.Rs (m.residual x (m.y4 x)) :=
    m.residual_plus n hadd x _ _ s4 (hs.S _ (m.Size_residual hs x _ hx s4))
  rw [r5, r4, r3, r2, r1]

/-- The system operator of `demoMaps` is additive on vectors of two entries. -/
theorem demoMaps_AdditiveA : demoMaps.AdditiveA 2 := by
  intro u v hu hv
  match u, v, hu, hv with
  | [a, b], [c, d], _, _ =>
    simp only [demoMaps, demoDiag, Vector.plus, List.zipWith_cons_cons, List.zipWith_nil_right,
      List.range, List.range.loop, List.map_cons, List.map_nil, List.getD_cons_zero,
      List.getD_cons_succ]
    simp only [mul_add]

/-- C14: the residual-propagation identity of the cycle.  With the collaborators
being functions `m` of compatible shapes and the system operator `A` additive,
for every input `x` of `A.Height()` entries and whatever `y` (of the size of
`x`) held on entry, `GeneralAMS::Mult` returns, and the residual of the returned
`y` is `x - A y = Rs(Rg(Rpi(Rg(Rs(x)))))`, where `Rs(r) = r - A S(r)`,
`Rg(r) = r - A Mg(r)` and `Rpi(r) = r - A Mpi(r)` with `Mg = G Bg G^T` and
`Mpi = Pi Bpi Pi^T`: each stage sees the residual left by all earlier stages.
The smoother and the auxiliary solvers are arbitrary functions. -/
theorem GeneralAMS.Mult_residual_propagation (ams : GeneralAMS R) (m : StageMaps R)
    (cuda : Bool) (mem : Nat → R) (x y : Vector R) (ng npi : Nat)
    (hxA : x.Size = ams.A_.height) (hxy : x.Size = y.Size)
    (hm : ams.Computes m) (hs : m.Shaped x.Size ng npi) (hadd : m.AdditiveA x.Size) :
    Returns ((ams.Mult cuda mem x y).run [])
      (fun r => Vector.minus x (m.A r.1) = m.Rs (m.Rg (m.Rpi (m.Rg (m.Rs x))))) := by
  obtain ⟨t, ht⟩ := GeneralAMS.Mult_returns_y5 ams m cuda mem x y ng npi hxA hxy hm hs
  rw [ht]
  exact m.residual_y5 x.Size ng npi hs hadd x rfl

/-- C14, witness: the cycle of `demoAMS` on `x = [1, 3]`, with `y = [5, 5]` on
entry; the final residual is `[-17, -19]`. -/
theorem GeneralAMS.Mult_residual_propagation_witness :
    demoMaps.AdditiveA 2 ∧
    demoMaps.Rs (demoMaps.Rg (demoMaps.Rpi (demoMaps.Rg (demoMaps.Rs [1, 3])))) = [-17, -19] ∧
    Returns ((demoAMS.Mult false (fun _ => 7) [1, 3] [5, 5]).run [])
      (fun r => Vector.minus [1, 3] (demoMaps.A r.1) =
        demoMaps.Rs (demoMaps.Rg (demoMaps.Rpi (demoMaps.Rg (demoMaps.Rs [1, 3]))))) :=
  ⟨demoMaps_AdditiveA, by decide,
    GeneralAMS.Mult_residual_propagation demoAMS demoMaps false (fun _ => 7) [1, 3] [5, 5] 1 2
      rfl rfl demoAMS_Computes demoMaps_Shaped demoMaps_AdditiveA⟩

end Propagation

end mfem

namespace mfem

/-! ## Symmetry of the cycle -/

section Symmetry

variable {R : Type} [CommRing R]

/-- The five-stage recurrence in a ring is invariant under reversal of the
products, for symmetric corrections. -/
theorem cycle_reversal {M : Type} [Ring M] (s a g p : M) :
    (s + g * (1 - a * s) + p * (1 - a * (s + g * (1 - a * s))) +
        g * (1 - a * (s + g * (1 - a * s) + p * (1 - a * (s + g * (1 - a * s))))) +
      s * (1 - a * (s + g * (1 - a * s) + p * (1 - a * (s + g * (1 - a * s))) +
        g * (1 - a * (s + g * (1 - a * s) + p * (1 - a * (s + g * (1 - a * s)))))))) =
    (s + (1 - s * a) * g + (1 - (s + (1 - s * a) * g) * a) * p +
        (1 - (s + (1 - s * a) * g + (1 - (s + (1 - s * a) * g) * a) * p) * a) * g +
      (1 - (s + (1 - s * a) * g + (1 - (s + (1 - s * a) * g) * a) * p +
        (1 - (s + (1 - s * a) * g + (1 - (s + (1 - s * a) * g) * a) * p) * a) * g) * a) * s) := by
  noncomm_ring

/-- The matrix of the cycle is symmetric when `A`, `S`, `Bg` and `Bpi` are. -/
theorem cycleMatrix_IsSymm {n ng npi : Nat}
    (A S : Matrix (Fin n) (Fin n) R) (G : Matrix (Fin n) (Fin ng) R)
    (Bg : Matrix (Fin ng) (Fin ng) R) (Pi : Matrix (Fin n) (Fin npi) R)
    (Bpi : Matrix (Fin npi) (Fin npi) R)
    (hA : A.IsSymm) (hS : S.IsSymm) (hBg : Bg.IsSymm) (hBpi : Bpi.IsSymm) :
    (cycleMatrix A S G Bg Pi Bpi).IsSymm := by
  have hg : (G * Bg * G.transpose).transpose = G * Bg * G.transpose := by
    rw [Matrix.transpose_mul, Matrix.transpose_mul, Matrix.transpose_transpose, hBg.eq,
      Matrix.mul_assoc]
  have hp : (Pi * Bpi * Pi.transpose).transpose = Pi * Bpi * Pi.transpose := by
    rw [Matrix.transpose_mul, Matrix.transpose_mul, Matrix.transpose_transpose, hBpi.eq,
      Matrix.mul_assoc]
  unfold Matrix.IsSymm cycleMatrix
  simp only [Matrix.transpose_add, Matrix.transpose_mul, Matrix.transpose_sub,
    Matrix.transpose_one, hA.eq, hS.eq]
  simp only [← Matrix.transpose_mul, hg, hp]
  exact (cycle_reversal S A (G * Bg * G.transpose) (Pi * Bpi * Pi.transpose)).symm

/-- Reading a tabulated function back gives the function. -/
theorem Vector.toFn_ofFn (n : Nat) (f : Fin n → R) : Vector.toFn n (List.ofFn f) = f := by
  funext i
  simp [Vector.toFn, List.getD_eq_getElem?_getD]

/-- Tabulating the entries of a vector of `n` entries gives the vector. -/
theorem Vector.ofFn_toFn (n : Nat) (v : Vector R) (h : v.Size = n) :
    List.ofFn (Vector.toFn n v) = v := by
  apply List.ext_getElem
  · simp [h.symm, Vector.Size]
  · intro i h1 h2
    simp [Vector.toFn, List.getD_eq_getElem?_getD, List.getElem?_eq_getElem h2]

/-- The entrywise combination of two tabulated functions. -/
theorem Vector.zipWith_ofFn {α : Type} (n : Nat) (op : α → α → α) (f g : Fin n → α) :
    List.zipWith op (List.ofFn f) (List.ofFn g) = List.ofFn (fun i => op (f i) (g i)) := by
  apply List.ext_getElem
  · simp
  · intro i h1 h2
    simp

/-- The inner product of two tabulated functions is their dot product. -/
theorem Vector.Dot_ofFn (n : Nat) (f g : Fin n → R) :
    Vector.Dot (List.ofFn f) (List.ofFn g) = Matrix.dotProduct f g := by
  unfold Vector.Dot
  rw [Vector.zipWith_ofFn, List.sum_ofFn]
  rfl

/-- The collaborators of the cycle of matrices are the stage maps of the
matrices. -/
theorem GeneralAMS.ofMatrices_Computes {n ng npi : Nat}
    (A S : Matrix (Fin n) (Fin n) R) (G : Matrix (Fin n) (Fin ng) R)
    (Bg : Matrix (Fin ng) (Fin ng) R) (Pi : Matrix (Fin n) (Fin npi) R)
    (Bpi : Matrix (Fin npi) (Fin npi) R) (ess : List Int) :
    (GeneralAMS.ofMatrices A S G Bg Pi Bpi ess).Computes
      (StageMaps.ofMatrices A S G Bg Pi Bpi) :=
  { smoother := fun _ _ => rfl, A := fun _ _ => rfl, g := fun _ _ => rfl, gT := fun _ _ => rfl,
    gspacesolver := fun _ _ => rfl, pi := fun _ _ => rfl, piT := fun _ _ => rfl,
    pispacesolver := fun _ _ => rfl }

/-- The stage maps of matrices have the shapes of the matrices. -/
theorem StageMaps.ofMatrices_Shaped {n ng npi : Nat}
    (A S : Matrix (Fin n) (Fin n) R) (G : Matrix (Fin n) (Fin ng) R)
    (Bg : Matrix (Fin ng) (Fin ng) R) (Pi : Matrix (Fin n) (Fin npi) R)
    (Bpi : Matrix (Fin npi) (Fin npi) R) :
    (StageMaps.ofMatrices A S G Bg Pi Bpi).Shaped n ng npi :=
  { S := fun _ _ => List.length_ofFn _, A := fun _ _ => List.length_ofFn _,
    G := fun _ _ => List.length_ofFn _, Gt := fun _ _ => List.length_ofFn _,
    Bg := fun _ _ => List.length_ofFn _, Pi := fun _ _ => List.length_ofFn _,
    Pit := fun _ _ => List.length_ofFn _, Bpi := fun _ _ => List.length_ofFn _ }

/-- The fifth iterate of the stage maps of matrices is the product with the
matrix of the cycle. -/
theorem StageMaps.ofMatrices_y5 {n ng npi : Nat}
    (A S : Matrix (Fin n) (Fin n) R) (G : Matrix (Fin n) (Fin ng) R)
    (Bg : Matrix (Fin ng) (Fin ng) R) (Pi : Matrix (Fin n) (Fin npi) R)
    (Bpi : Matrix (Fin npi) (Fin npi) R) (x : Vector R) (hx : x.Size = n) :
    (StageMaps.ofMatrices A S G Bg Pi Bpi).y5 x =
      List.ofFn ((cycleMatrix A S G Bg Pi Bpi).mulVec (Vector.toFn n x)) := by
  have hplus : ∀ f g : Fin n → R,
      Vector.plus (List.ofFn f) (List.ofFn g) = List.ofFn (f + g) :=
    fun f g => Vector.zipWith_ofFn n _ f g
  have hminus : ∀ f g : Fin n → R,
      Vector.minus (List.ofFn f) (List.ofFn g) = List.ofFn (f - g) :=
    fun f g => Vector.zipWith_ofFn n _ f g
  have hx0 := Vector.ofFn_toFn n x hx
  generalize Vector.toFn n x = u at hx0
  subst hx0
  simp only [StageMaps.y5, StageMaps.y4, StageMaps.y3, StageMaps.y2, StageMaps.y1,
    StageMaps.residual, StageMaps.ofMatrices, Operator.ofMatrix, Vector.toFn_ofFn, hplus,
    hminus, cycleMatrix]
  congr 1
  simp only [Matrix.add_mulVec, Matrix.sub_mulVec, Matrix.one_mulVec, Matrix.mulVec_mulVec,
    Matrix.mulVec_add, Matrix.mulVec_sub, Matrix.mul_add, Matrix.mul_sub, Matrix.mul_one,
    Matrix.mul_assoc]

/-- The matrices of the example are symmetric. -/
theorem demoMatrices_IsSymm :
    demoMatrixA.IsSymm ∧ demoMatrixS.IsSymm ∧ demoMatrixBg.IsSymm ∧ demoMatrixBpi.IsSymm := by
  refine ⟨?_, ?_, ?_, ?_⟩ <;>
  · apply Matrix.IsSymm.ext
    decide

end Symmetry

/-- C15: the cycle is a symmetric preconditioner.  With the system operator,
the smoother and the two auxiliary solvers being the operators of symmetric
matrices `A`, `S`, `Bg`, `Bpi` over a commutative ring, and the inter-space
operators those of arbitrary matrices `G`, `Pi` of compatible shape, for every
input `x` of `A.Height()` entries and whatever `y` held on entry
`GeneralAMS::Mult` returns the product of the matrix `B` of the cycle with `x`:
the cycle is linear; `B` is symmetric; and `<Mult(x), z> = <x, Mult(z)>` for
all `x` and `z`. -/
theorem GeneralAMS.Mult_symmetric_preconditioner {R : Type} [CommRing R] {n ng npi : Nat}
    (A S : Matrix (Fin n) (Fin n) R) (G : Matrix (Fin n) (Fin ng) R)
    (Bg : Matrix (Fin ng) (Fin ng) R) (Pi : Matrix (Fin n) (Fin npi) R)
    (Bpi : Matrix (Fin npi) (Fin npi) R) (ess : List Int) (cuda : Bool) (mem : Nat → R)
    (hA : A.IsSymm) (hS : S.IsSymm) (hBg : Bg.IsSymm) (hBpi : Bpi.IsSymm) :
    (cycleMatrix A S G Bg Pi Bpi).IsSymm ∧
    (∀ x y : Vector R, x.Size = n → y.Size = n →
      Returns (((GeneralAMS.ofMatrices A S G Bg Pi Bpi ess).Mult cuda mem x y).run [])
        (fun r => r.1 = List.ofFn ((cycleMatrix A S G Bg Pi Bpi).mulVec (Vector.toFn n x)))) ∧
    (∀ x z yx yz : Vector R, x.Size = n → z.Size = n → yx.Size = n → yz.Size = n →
      Returns (((GeneralAMS.ofMatrices A S G Bg Pi Bpi ess).Mult cuda mem x yx).run [])
        (fun rx =>
          Returns (((GeneralAMS.ofMatrices A S G Bg Pi Bpi ess).Mult cuda mem z yz).run [])
            (fun rz => Vector.Dot rx.1 z = Vector.Dot x rz.1))) := by
  have hB := cycleMatrix_IsSymm A S G Bg Pi Bpi hA hS hBg hBpi
  have hrun : ∀ x y : Vector R, x.Size = n → y.Size = n →
      ∃ t, ((GeneralAMS.ofMatrices A S G Bg Pi Bpi ess).Mult cuda mem x y).run [] =
        Except.ok (List.ofFn ((cycleMatrix A S G Bg Pi Bpi).mulVec (Vector.toFn n x)), t) := by
    intro x y hx hy
    subst hx
    obtain ⟨t, ht⟩ := GeneralAMS.Mult_returns_y5 (GeneralAMS.ofMatrices A S G Bg Pi Bpi ess)
      (StageMaps.ofMatrices A S G Bg Pi Bpi) cuda mem x y ng npi rfl hy.symm
      (GeneralAMS.ofMatrices_Computes A S G Bg Pi Bpi ess)
      (StageMaps.ofMatrices_Shaped A S G Bg Pi Bpi)
    rw [StageMaps.ofMatrices_y5 A S G Bg Pi Bpi x rfl] at ht
    exact ⟨t, ht⟩
  refine ⟨hB, ?_, ?_⟩
  · intro x y hx hy
    obtain ⟨t, ht⟩ := hrun x y hx hy
    rw [ht]
    exact rfl
  · intro x z yx yz hx hz hyx hyz
    obtain ⟨t, ht⟩ := hrun x yx hx hyx
    obtain ⟨t1, ht1⟩ := hrun z yz hz hyz
    rw [ht, ht1]
    show Vector.Dot (List.ofFn ((cycleMatrix A S G Bg Pi Bpi).mulVec (Vector.toFn n x))) z =
      Vector.Dot x (List.ofFn ((cycleMatrix A S G Bg Pi Bpi).mulVec (Vector.toFn n z)))
    have hx0 := Vector.ofFn_toFn n x hx
    have hz0 := Vector.ofFn_toFn n z hz
    calc Vector.Dot (List.ofFn ((cycleMatrix A S G Bg Pi Bpi).mulVec (Vector.toFn n x))) z
        = Vector.Dot (List.ofFn ((cycleMatrix A S G Bg Pi Bpi).mulVec (Vector.toFn n x)))
            (List.ofFn (Vector.toFn n z)) := by rw [hz0]
      _ = Matrix.dotProduct ((cycleMatrix A S G Bg Pi Bpi).mulVec (Vector.toFn n x))
            (Vector.toFn n z) := Vector.Dot_ofFn n _ _
      _ = Matrix.dotProduct (Vector.toFn n x)
            ((cycleMatrix A S G Bg Pi Bpi).mulVec (Vector.toFn n z)) := by
          rw [Matrix.dotProduct_mulVec, ← hB.eq, Matrix.vecMul_transpose, hB.eq]
      _ = Vector.Dot (List.ofFn (Vector.toFn n x))
            (List.ofFn ((cycleMatrix A S G Bg Pi Bpi).mulVec (Vector.toFn n z))) :=
          (Vector.Dot_ofFn n _ _).symm
      _ = Vector.Dot x
            (List.ofFn ((cycleMatrix A S G Bg Pi Bpi).mulVec (Vector.toFn n z))) := by rw [hx0]

/-- C15, witness: the cycle of the matrices of the example, whose interpolation
`Pi` is not symmetric. -/
theorem GeneralAMS.Mult_symmetric_preconditioner_witness :
    (demoMatrixA.IsSymm ∧ demoMatrixS.IsSymm ∧ demoMatrixBg.IsSymm ∧ demoMatrixBpi.IsSymm) ∧
    (cycleMatrix demoMatrixA demoMatrixS demoMatrixG demoMatrixBg demoMatrixPi
      demoMatrixBpi).IsSymm ∧
    Returns (((GeneralAMS.ofMatrices demoMatrixA demoMatrixS demoMatrixG demoMatrixBg
        demoMatrixPi demoMatrixBpi []).Mult false (fun _ => 7) [1, 3] [5, 5]).run [])
      (fun rx =>
        Returns (((GeneralAMS.ofMatrices demoMatrixA demoMatrixS demoMatrixG demoMatrixBg
            demoMatrixPi demoMatrixBpi []).Mult false (fun _ => 7) [2, -1] [0, 0]).run [])
          (fun rz => Vector.Dot rx.1 [2, -1] = Vector.Dot [1, 3] rz.1)) :=
  ⟨demoMatrices_IsSymm,
    (GeneralAMS.Mult_symmetric_preconditioner demoMatrixA demoMatrixS demoMatrixG demoMatrixBg
      demoMatrixPi demoMatrixBpi [] false (fun _ => 7) demoMatrices_IsSymm.1
      demoMatrices_IsSymm.2.1 demoMatrices_IsSymm.2.2.1 demoMatrices_IsSymm.2.2.2).1,
    (GeneralAMS.Mult_symmetric_preconditioner demoMatrixA demoMatrixS demoMatrixG demoMatrixBg
      demoMatrixPi demoMatrixBpi [] false (fun _ => 7) demoMatrices_IsSymm.1
      demoMatrices_IsSymm.2.1 demoMatrices_IsSymm.2.2.1 demoMatrices_IsSymm.2.2.2).2.2
      [1, 3] [2, -1] [5, 5] [0, 0] rfl rfl rfl rfl⟩

end mfem

namespace mfem

namespace MatrixFreeAuxiliarySpace

/-! ## Boundary zeroing over successive calls -/

section Zeroing

variable {R : Type} [LinearOrderedField R]

/-- The G-space constructor leaves a zero-wrapped solver. -/
theorem GSpace_ZeroWrapped (ext : External R) (useAMGx directSolve : Bool) (mem : Nat → R)
    (comm_ : MPI_Comm) (mesh_lor : ParMesh) (beta_coeff : Option Coefficient)
    (ess_bdr : List Int) (curlcurl_oper g : Operator R) (n : Int) (very_verbose : Bool)
    (s : MatrixFreeAuxiliarySpace R)
    (hs : GSpace ext useAMGx directSolve mem comm_ mesh_lor beta_coeff ess_bdr curlcurl_oper g n
      very_verbose = Except.ok s) :
    s.ZeroWrapped ext useAMGx := by
  obtain ⟨_, hpc, hinner⟩ := GSpace_ok ext useAMGx directSolve mem comm_ mesh_lor beta_coeff
    ess_bdr curlcurl_oper g n very_verbose s hs
  refine ⟨hpc, ?_⟩
  split at hinner
  · obtain ⟨inner, hcg, _, h2, h3⟩ := hinner
    obtain ⟨i1, _, cg, i3, i4, i5, _⟩ := SetupCG_ok mem comm_ s.aspacepc_ curlcurl_oper g
      n very_verbose inner hcg
    exact Or.inr ⟨h3.trans i1, cg, _, h2.trans i3, i4, i5⟩
  · exact Or.inl ⟨hinner.2.2, hinner.2.1⟩

/-- One call of `Mult` on a zero-wrapped solver returns an output that is zero
at the essential dofs, and leaves a zero-wrapped solver with the same list of
essential dofs. -/
theorem ZeroWrapped_Mult (ext : External R) (useAMGx : Bool) (t : MatrixFreeAuxiliarySpace R)
    (ht : t.ZeroWrapped ext useAMGx) (mem : Nat → R) (x y : Vector R) :
    ∃ out t1, t.Mult mem x y = Except.ok (out, t1) ∧ t1.ZeroWrapped ext useAMGx ∧
      t1.ess_tdof_list_ = t.ess_tdof_list_ ∧
      ∀ k ∈ t.ess_tdof_list_, 0 ≤ k → k.toNat < out.Size → out[k.toNat]? = some 0 := by
  obtain ⟨hpc, hw⟩ := ht
  have hzero : ∀ k ∈ t.ess_tdof_list_, 0 ≤ k →
      Returns (t.Mult mem x y) (fun res => res.1.ZeroAt k.toNat) := by
    intro k hk h0
    apply Mult_keeps_zero_entry t k.toNat _ hw
    intro r z
    rw [hpc]
    exact ZeroWrap.Mult_zero_at_listed _ r z k hk h0
  have hout : ∀ out t1, t.Mult mem x y = Except.ok (out, t1) →
      ∀ k ∈ t.ess_tdof_list_, 0 ≤ k → k.toNat < out.Size → out[k.toNat]? = some 0 := by
    intro out t1 hres k hk h0 hlt
    have hz := hzero k hk h0
    rw [hres, Returns_ok] at hz
    exact (Vector.ZeroAt_iff _ _).1 hz hlt
  rcases hw with ⟨hw, hcg⟩ | ⟨hw, cg, A, hcg, hoper, hprec⟩
  · have hres := Mult_without_cg t mem x y hw hcg
    exact ⟨_, _, hres, ⟨hpc, Or.inl ⟨hw, hcg⟩⟩, rfl, hout _ _ hres⟩
  · obtain ⟨ysol, cg1, _, ⟨fi, cv, hcfg⟩, hres⟩ := Mult_with_cg t mem x y cg A hw hcg hoper
    refine ⟨_, _, hres, ⟨hpc, Or.inr ⟨hw, cg1, A, rfl, ?_, ?_⟩⟩, rfl, hout _ _ hres⟩
    · rw [hcfg]
      exact hoper
    · rw [hcfg]
      exact hprec

/-- Every output of successive calls of `Mult` on a zero-wrapped solver is zero
at the essential dofs. -/
theorem ZeroWrapped_MultSequence (ext : External R) (useAMGx : Bool)
    (calls : List ((Nat → R) × Vector R × Vector R)) (t : MatrixFreeAuxiliarySpace R)
    (ht : t.ZeroWrapped ext useAMGx) :
    Returns (t.MultSequence calls) (fun res =>
      res.1.length = calls.length ∧ res.2.ess_tdof_list_ = t.ess_tdof_list_ ∧
      ∀ out ∈ res.1, ∀ k ∈ t.ess_tdof_list_, 0 ≤ k → k.toNat < out.Size →
        out[k.toNat]? = some 0) := by
  induction calls generalizing t with
  | nil =>
    exact ⟨rfl, rfl, fun out hout => absurd hout (List.not_mem_nil out)⟩
  | cons c calls ih =>
    obtain ⟨mem, x, y⟩ := c
    obtain ⟨out, t1, hres, ht1, hess, hz⟩ := ZeroWrapped_Mult ext useAMGx t ht mem x y
    obtain ⟨res, hres1, hlen, hess1, hz1⟩ := (Returns_iff _ _).1 (ih t1 ht1)
    obtain ⟨outs, t2⟩ := res
    simp only [MultSequence, hres, hres1, Except_ok_bind, Except_pure, Returns_ok]
    refine ⟨by simp [hlen], hess1.trans hess, ?_⟩
    intro o ho
    rcases List.mem_cons.1 ho with rfl | ho
    · exact hz
    · rw [← hess]
      exact hz1 o ho

end Zeroing

/-- C4: boundary-zeroing invariant of the G-space solver.  For every solver `s`
the G-space constructor returns (for every list of essential dofs the space
yields, every inner iteration count and every algebraic solver wrapped by the
`ZeroWrap` of `SetupBoomerAMG(0)`), and every sequence of calls of `Mult` on
it, with every input `x` and whatever `y` held on entry: every call returns, and
every output, of the first call and of every later one, is `0` at every index
of the list of essential dofs of `s` that lies within the output.  The list of
essential dofs is the same after the calls. -/
theorem GSpace_Mult_zero_at_essential_dofs {R : Type} [LinearOrderedField R]
    (ext : External R) (useAMGx directSolve : Bool) (mem : Nat → R)
    (comm_ : MPI_Comm) (mesh_lor : ParMesh) (beta_coeff : Option Coefficient)
    (ess_bdr : List Int) (curlcurl_oper g : Operator R) (cg_iterations : Int)
    (very_verbose : Bool) (s : MatrixFreeAuxiliarySpace R)
    (hs : GSpace ext useAMGx directSolve mem comm_ mesh_lor beta_coeff ess_bdr curlcurl_oper g
      cg_iterations very_verbose = Except.ok s)
    (calls : List ((Nat → R) × Vector R × Vector R)) :
    Returns (s.MultSequence calls) (fun res =>
      res.1.length = calls.length ∧ res.2.ess_tdof_list_ = s.ess_tdof_list_ ∧
      ∀ out ∈ res.1, ∀ k ∈ s.ess_tdof_list_, 0 ≤ k → k.toNat < out.Size →
        out[k.toNat]? = some 0) :=
  ZeroWrapped_MultSequence ext useAMGx calls s
    (GSpace_ZeroWrapped ext useAMGx directSolve mem comm_ mesh_lor beta_coeff ess_bdr
      curlcurl_oper g cg_iterations very_verbose s hs)

/-- Witness of C4: the G-space solver built over `demoExternal`, whose list of
essential dofs is `[1]`, called twice.  Without inner iteration the outputs for
`[3, 4]` and `[5, 6]` are `[3, 0]` and `[5, 0]`; with one inner
conjugate-gradient iteration the wrapper is the conjugate-gradient solver, and
the invariant holds for both calls as well. -/
theorem GSpace_Mult_zero_at_essential_dofs_witness :
    (∃ s, GSpace demoExternal false false (fun _ => 0) ⟨0⟩ ⟨3⟩ (some ⟨0⟩) [1] demoCurlCurl
        demoGrad 0 false = Except.ok s ∧
      s.ess_tdof_list_ = [1] ∧
      Returns (s.MultSequence [(fun _ => 0, [3, 4], [9, 9]), (fun _ => 0, [5, 6], [8, 8])])
        (fun res => res.1 = [[3, 0], [5, 0]]) ∧
      Returns (s.MultSequence [(fun _ => 0, [3, 4], [9, 9]), (fun _ => 0, [5, 6], [8, 8])])
        (fun res =>
          res.1.length = 2 ∧ res.2.ess_tdof_list_ = s.ess_tdof_list_ ∧
          ∀ out ∈ res.1, ∀ k ∈ s.ess_tdof_list_, 0 ≤ k → k.toNat < out.Size →
            out[k.toNat]? = some 0)) ∧
    (∃ s, GSpace demoExternal false false (fun _ => 0) ⟨0⟩ ⟨3⟩ (some ⟨0⟩) [1] demoCurlCurl
        demoGrad 1 false = Except.ok s ∧
      s.ess_tdof_list_ = [1] ∧ s.aspacewrapper_ = WrapperTarget.cg ∧
      Returns (s.MultSequence [(fun _ => 0, [3, 4], [9, 9]), (fun _ => 0, [5, 6], [8, 8])])
        (fun res =>
          res.1.length = 2 ∧ res.2.ess_tdof_list_ = s.ess_tdof_list_ ∧
          ∀ out ∈ res.1, ∀ k ∈ s.ess_tdof_list_, 0 ≤ k → k.toNat < out.Size →
            out[k.toNat]? = some 0)) :=
  ⟨⟨_, rfl, rfl, rfl,
    GSpace_Mult_zero_at_essential_dofs demoExternal false false (fun _ => 0) ⟨0⟩ ⟨3⟩
      (some ⟨0⟩) [1] demoCurlCurl demoGrad 0 false _ rfl
      [(fun _ => 0, [3, 4], [9, 9]), (fun _ => 0, [5, 6], [8, 8])]⟩,
   ⟨_, rfl, rfl, rfl,
    GSpace_Mult_zero_at_essential_dofs demoExternal false false (fun _ => 0) ⟨0⟩ ⟨3⟩
      (some ⟨0⟩) [1] demoCurlCurl demoGrad 1 false _ rfl
      [(fun _ => 0, [3, 4], [9, 9]), (fun _ => 0, [5, 6], [8, 8])]⟩⟩

end MatrixFreeAuxiliarySpace

end mfem
